import Mathlib

set_option linter.unusedSectionVars false
set_option maxRecDepth 16384

/-!
Verification development for the actix-web core: shallow Lean embedding of
the client connection pool (`src/client/connector.rs`), the router
(`src/router.rs`), the application dispatcher (`src/application.rs`) and the
WebSocket frame codec (`src/ws/frame.rs`), with theorems checking the
natural-language specification against the embedded code.

Conventions used throughout:
* Rust `Instant`/`Duration` values become `Nat` time stamps; `a - b` on
  `Instant` becomes truncated `Nat` subtraction (the code only subtracts
  earlier time stamps from later ones on the paths modelled here).
* `HashMap<K, V>` becomes an association list `List (K × V)` with
  first-occurrence lookup/insert/remove (`alGet`/`alInsert`/`alRemove`),
  matching get/insert/remove semantics of the hash map.
* `VecDeque` becomes a `List` whose head is the deque front.
* Byte strings (`&str`, `Bytes`) become `List Nat` with entries < 256.
* I/O results that the code branches on (the non-blocking 2-byte liveness
  read, `AsyncWrite::shutdown`, `oneshot::Sender::is_canceled`) are recorded
  as oracle fields on the corresponding data, making the code paths pure.
-/

namespace ActixWeb

/-! ### Association-list model of `HashMap` -/

section AList

variable {K : Type} [DecidableEq K] {V : Type}

/-- Lookup of the first binding of `k`, i.e. `HashMap::get`. -/
def alGet : List (K × V) → K → Option V
  | [], _ => none
  | p :: rest, k => if p.1 = k then some p.2 else alGet rest k

/-- Replace the first binding of `k` or append a new one, i.e. `HashMap::insert`. -/
def alInsert : List (K × V) → K → V → List (K × V)
  | [], k, v => [(k, v)]
  | p :: rest, k, v => if p.1 = k then (k, v) :: rest else p :: alInsert rest k v

/-- Remove the first binding of `k`, i.e. `HashMap::remove`. -/
def alRemove : List (K × V) → K → List (K × V)
  | [], _ => []
  | p :: rest, k => if p.1 = k then rest else p :: alRemove rest k

end AList

/-- Sum of all values of an association list with `Nat` values. -/
def sumVals {K : Type} (m : List (K × Nat)) : Nat :=
  (m.map (·.2)).sum

/-! ### Connector pool state (`src/client/connector.rs`) -/

/-- Outcome of the non-blocking 2-byte liveness read in
`ClientConnector::acquire` (`conn.stream().read(&mut buf)`), recorded as an
oracle on the connection. -/
inductive ProbeResult
  | wouldBlock
  | gotBytes
  | eofOrErr
deriving DecidableEq, Repr

/-- The data of a pooled `Connection` that the connector inspects: its key,
its creation time stamp `ts`, and the oracles for its stream I/O. -/
structure ConnInfo (K : Type) where
  key : K
  ts : Nat
  probe : ProbeResult
  /-- Oracle for `AsyncWrite::shutdown` in `collect`: `true` means the
  shutdown returned `Ok(Async::NotReady)` and the connection stays queued. -/
  shutdownNotReady : Bool
deriving DecidableEq, Repr

/-- `Conn(Instant, Connection)`: an idle-pool entry pairing the release time
stamp with the connection. -/
structure IdleConn (K : Type) where
  released : Nat
  conn : ConnInfo K
deriving DecidableEq, Repr

/-- The pool-related fields of `ClientConnector`. -/
structure PoolState (K : Type) where
  limit : Nat
  limitPerHost : Nat
  acquired : Nat
  acquiredPerHost : List (K × Nat)
  available : List (K × List (IdleConn K))
  toClose : List (ConnInfo K)
  connKeepAlive : Nat
  connLifetime : Nat
deriving DecidableEq, Repr

/-- Result type of `ClientConnector::acquire`. -/
inductive Acquire (K : Type)
  | acquired (c : ConnInfo K)
  | available
  | notAvailable
deriving DecidableEq, Repr

namespace ClientConnector

variable {K : Type} [DecidableEq K]

/-- `ClientConnector::reserve`: take one slot for `key`. -/
def reserve (key : K) (s : PoolState K) : PoolState K :=
  let perHost := match alGet s.acquiredPerHost key with
    | some ph => ph
    | none => 0
  { s with acquired := s.acquired + 1,
           acquiredPerHost := alInsert s.acquiredPerHost key (perHost + 1) }

/-- `ClientConnector::release_key`: `acquired -= 1` happens unconditionally
(`Nat` truncated subtraction models the `usize` decrement; at
`acquired = 0` the Rust code would underflow), then the per-host entry is
decremented or removed, with an early return when the key is absent. -/
def releaseKey (key : K) (s : PoolState K) : PoolState K :=
  let s' := { s with acquired := s.acquired - 1 }
  match alGet s'.acquiredPerHost key with
  | none => s'
  | some perHost =>
    if perHost > 1 then
      { s' with acquiredPerHost := alInsert s'.acquiredPerHost key (perHost - 1) }
    else
      { s' with acquiredPerHost := alRemove s'.acquiredPerHost key }

/-- The `while let Some(conn) = connections.pop_back()` loop of `acquire`,
acting on the reversed bucket (head = deque back). Returns the reused
connection (if any), the unscanned remainder (still reversed), and the
connections routed to the close list. -/
def idleScan (now keepAlive lifetime : Nat) :
    List (IdleConn K) → List (ConnInfo K) →
    Option (ConnInfo K) × List (IdleConn K) × List (ConnInfo K)
  | [], closed => (none, [], closed)
  | e :: rest, closed =>
    if now - e.released > keepAlive ∨ now - e.conn.ts > lifetime then
      idleScan now keepAlive lifetime rest (closed ++ [e.conn])
    else
      match e.conn.probe with
      | ProbeResult.wouldBlock => (some e.conn, rest, closed)
      | ProbeResult.gotBytes => idleScan now keepAlive lifetime rest (closed ++ [e.conn])
      | ProbeResult.eofOrErr => idleScan now keepAlive lifetime rest closed

/-- `ClientConnector::acquire` (connector.rs lines 310-360): the limit
checks (note the code compares `self.limit_per_host >= *per_host`), then
`reserve`, then the idle-bucket scan. -/
def acquire (now : Nat) (key : K) (s : PoolState K) : Acquire K × PoolState K :=
  let blocked : Bool :=
    if s.limit > 0 then
      if s.acquired ≥ s.limit then true
      else if s.limitPerHost > 0 then
        match alGet s.acquiredPerHost key with
        | some perHost => s.limitPerHost ≥ perHost
        | none => false
      else false
    else if s.limitPerHost > 0 then
      match alGet s.acquiredPerHost key with
      | some perHost => s.limitPerHost ≥ perHost
      | none => false
    else false
  if blocked then (Acquire.notAvailable, s)
  else
    let s1 := reserve key s
    match alGet s1.available key with
    | none => (Acquire.available, s1)
    | some bucket =>
      let scan := idleScan now s1.connKeepAlive s1.connLifetime bucket.reverse []
      let s2 := { s1 with available := alInsert s1.available key scan.2.1.reverse,
                          toClose := s1.toClose ++ scan.2.2 }
      match scan.1 with
      | some c => (Acquire.acquired c, s2)
      | none => (Acquire.available, s2)

/-- The staleness test of the keep-alive loop in `collect`:
`(now > conns[0].0) && (now - conns[0].0) > self.conn_keep_alive
 || (now - conns[0].1.ts) > self.conn_lifetime`. -/
def staleAt (now keepAlive lifetime : Nat) (e : IdleConn K) : Bool :=
  (decide (now > e.released) && decide (now - e.released > keepAlive))
    || decide (now - e.conn.ts > lifetime)

/-- The `while !conns.is_empty() { ... pop_front ... break }` eviction loop
of `collect`, acting on one bucket: returns the evicted connections and the
remaining bucket. -/
def evictBucket (now keepAlive lifetime : Nat) :
    List (IdleConn K) → List (ConnInfo K) × List (IdleConn K)
  | [] => ([], [])
  | e :: rest =>
    if staleAt now keepAlive lifetime e then
      let r := evictBucket now keepAlive lifetime rest
      (e.conn :: r.1, r.2)
    else ([], e :: rest)

/-- `Vec::swap_remove(idx)`: replace the element at `idx` with the last
element and pop the last element. -/
def swapRemove {α : Type} (l : List α) (idx : Nat) : List α :=
  match l.getLast? with
  | none => l
  | some last => (l.set idx last).dropLast

/-- The `while idx < self.to_close.len()` shutdown loop of `collect(true)`:
entries whose shutdown returns `NotReady` stay, all others are removed with
`swap_remove`. -/
def shutdownLoop (l : List (ConnInfo K)) (idx : Nat) : List (ConnInfo K) :=
  match h : l[idx]? with
  | none => l
  | some c =>
    if c.shutdownNotReady then shutdownLoop l (idx + 1)
    else shutdownLoop (swapRemove l idx) idx
termination_by l.length - idx
decreasing_by
  · have hlt : idx < l.length := by
      rcases Nat.lt_or_ge idx l.length with h' | h'
      · exact h'
      · rw [List.getElem?_eq_none h'] at h; cases h
    omega
  · have hlt : idx < l.length := by
      rcases Nat.lt_or_ge idx l.length with h' | h'
      · exact h'
      · rw [List.getElem?_eq_none h'] at h; cases h
    have hne : l ≠ [] := by
      intro he; subst he; simp at hlt
    have hlen : (swapRemove l idx).length = l.length - 1 := by
      cases hl : l.getLast? with
      | none => exact absurd (List.getLast?_eq_none_iff.mp hl) hne
      | some last => simp [swapRemove, hl]
    rw [hlen]
    omega

/-- The pool-drain phase of `ClientConnector::collect` guarded by
`pool_modified`: release the half-acquired keys, release and queue the
connections to close, release the returned connections and re-insert the
ones younger than `conn_lifetime` into the idle set. -/
def collectModified (now : Nat) (poolKeys : List K) (poolClose poolRelease : List (ConnInfo K))
    (s : PoolState K) : PoolState K :=
  let s1 := poolKeys.foldl (fun acc k => releaseKey k acc) s
  let s2 := poolClose.foldl
    (fun acc c =>
      let acc' := releaseKey c.key acc
      { acc' with toClose := acc'.toClose ++ [c] }) s1
  poolRelease.foldl
    (fun acc c =>
      let acc' := releaseKey c.key acc
      if now - c.ts < acc'.connLifetime then
        let bucket := (alGet acc'.available c.key).getD [] ++ [IdleConn.mk now c]
        { acc' with available := alInsert acc'.available c.key bucket }
      else acc') s2

/-- `ClientConnector::collect` (connector.rs lines 388-450). The contents of
the shared `Pool` buffers (`keys`, `to_close`, `to_release`) and the
`pool_modified` flag are passed as arguments. -/
def collect (now : Nat) (periodic modified : Bool) (poolKeys : List K)
    (poolClose poolRelease : List (ConnInfo K)) (s : PoolState K) : PoolState K :=
  let s1 := if modified then collectModified now poolKeys poolClose poolRelease s else s
  let swept := s1.available.map
    (fun p => (p.1, evictBucket now s1.connKeepAlive s1.connLifetime p.2))
  let s2 := { s1 with available := swept.map (fun p => (p.1, p.2.2)),
                      toClose := s1.toClose ++ (swept.map (fun p => p.2.1)).flatten }
  if periodic then { s2 with toClose := shutdownLoop s2.toClose 0 } else s2

/-- The pool accounting invariant of §4.5: `acquired = Σ acquired_per_host[k]`. -/
def inv (s : PoolState K) : Prop :=
  s.acquired = sumVals s.acquiredPerHost

instance (s : PoolState K) : Decidable (inv s) := by
  unfold inv; infer_instance

/-- The keys released by one run of `collectModified`. -/
def releasedKeys (poolKeys : List K) (poolClose poolRelease : List (ConnInfo K)) :
    List K :=
  poolKeys ++ poolClose.map (·.key) ++ poolRelease.map (·.key)

/-- A pool-drain request is releasable from a per-host map when no key is
released more often than its currently held count. -/
def Releasable (m : List (K × Nat)) (ks : List K) : Prop :=
  ∀ k ∈ ks, ks.count k ≤ (alGet m k).getD 0

instance (m : List (K × Nat)) (ks : List K) : Decidable (Releasable m ks) := by
  unfold Releasable; infer_instance

end ClientConnector

/-! ### Router (`src/router.rs`) -/

/-- Percent-decoding of one hex digit byte, as in the `percent_encoding`
crate used by `Router::recognize` (an external collaborator of the core). -/
def hexVal (b : Nat) : Option Nat :=
  if 48 ≤ b ∧ b ≤ 57 then some (b - 48)
  else if 65 ≤ b ∧ b ≤ 70 then some (b - 55)
  else if 97 ≤ b ∧ b ≤ 102 then some (b - 87)
  else none

/-- `percent_decode`: a `%` followed by two hex digits becomes the decoded
byte; an invalid escape is passed through literally and decoding continues
with the following byte. -/
def percentDecode : List Nat → List Nat
  | 37 :: a :: b :: rest =>
    match hexVal a, hexVal b with
    | some ha, some hb => (16 * ha + hb) :: percentDecode rest
    | _, _ => 37 :: percentDecode (a :: b :: rest)
  | b :: rest => b :: percentDecode rest
  | [] => []

/-- Standard UTF-8 validity of a byte sequence, as checked by
`Cow::decode_utf8` (i.e. `str::from_utf8`) on the percent-decoded path. -/
def isValidUtf8 : List Nat → Bool
  | [] => true
  | b :: rest =>
    if b ≤ 0x7F then isValidUtf8 rest
    else if 0xC2 ≤ b ∧ b ≤ 0xDF then
      match rest with
      | c1 :: r => (0x80 ≤ c1 ∧ c1 ≤ 0xBF) ∧ isValidUtf8 r
      | [] => false
    else if b = 0xE0 then
      match rest with
      | c1 :: c2 :: r =>
        (0xA0 ≤ c1 ∧ c1 ≤ 0xBF) ∧ (0x80 ≤ c2 ∧ c2 ≤ 0xBF) ∧ isValidUtf8 r
      | _ => false
    else if (0xE1 ≤ b ∧ b ≤ 0xEC) ∨ b = 0xEE ∨ b = 0xEF then
      match rest with
      | c1 :: c2 :: r =>
        (0x80 ≤ c1 ∧ c1 ≤ 0xBF) ∧ (0x80 ≤ c2 ∧ c2 ≤ 0xBF) ∧ isValidUtf8 r
      | _ => false
    else if b = 0xED then
      match rest with
      | c1 :: c2 :: r =>
        (0x80 ≤ c1 ∧ c1 ≤ 0x9F) ∧ (0x80 ≤ c2 ∧ c2 ≤ 0xBF) ∧ isValidUtf8 r
      | _ => false
    else if b = 0xF0 then
      match rest with
      | c1 :: c2 :: c3 :: r =>
        (0x90 ≤ c1 ∧ c1 ≤ 0xBF) ∧ (0x80 ≤ c2 ∧ c2 ≤ 0xBF)
          ∧ (0x80 ≤ c3 ∧ c3 ≤ 0xBF) ∧ isValidUtf8 r
      | _ => false
    else if 0xF1 ≤ b ∧ b ≤ 0xF3 then
      match rest with
      | c1 :: c2 :: c3 :: r =>
        (0x80 ≤ c1 ∧ c1 ≤ 0xBF) ∧ (0x80 ≤ c2 ∧ c2 ≤ 0xBF)
          ∧ (0x80 ≤ c3 ∧ c3 ≤ 0xBF) ∧ isValidUtf8 r
      | _ => false
    else if b = 0xF4 then
      match rest with
      | c1 :: c2 :: c3 :: r =>
        (0x80 ≤ c1 ∧ c1 ≤ 0x8F) ∧ (0x80 ≤ c2 ∧ c2 ≤ 0xBF)
          ∧ (0x80 ≤ c3 ∧ c3 ≤ 0xBF) ∧ isValidUtf8 r
      | _ => false
    else false

/-- A compiled `Resource` pattern as the router matches it
(`PatternType::Static` compares the compiled literal for equality;
`PatternType::Dynamic` consults the compiled regex of the external `regex`
crate, modelled as an arbitrary boolean matcher on the decoded path). -/
inductive RPattern
  | static (s : List Nat)
  | dynamic (matcher : List Nat → Bool)

/-- `Resource::match_with_params` restricted to its boolean outcome (the
parameter recording is not needed by the claims settled here). -/
def RPattern.matches : RPattern → List Nat → Bool
  | RPattern.static s, path => s == path
  | RPattern.dynamic f, path => f path

/-- The router data used by `recognize`: the byte length of the prefix and
the ordered pattern table. -/
structure RouterM where
  prefixLen : Nat
  patterns : List RPattern

namespace Router

/-- The `for (idx, pattern) in patterns.iter().enumerate()` scan of
`recognize`: index of the first matching pattern. -/
def firstMatch : List RPattern → List Nat → Option Nat
  | [], _ => none
  | pat :: rest, p =>
    if pat.matches p then some 0
    else (firstMatch rest p).map (· + 1)

/-- The path that `recognize` matches patterns against: the path after the
prefix (replaced by `"/"` when empty), percent-decoded. -/
def decodedPath (r : RouterM) (path : List Nat) : List Nat :=
  let stripped := path.drop r.prefixLen
  let routePath := if stripped.isEmpty then [47] else stripped
  percentDecode routePath

/-- `Router::recognize` (router.rs lines 72-87). The
`percent_decode(...).decode_utf8().unwrap()` panic on invalid UTF-8 is the
`Except.error` outcome. -/
def recognize (r : RouterM) (path : List Nat) : Except Unit (Option Nat) :=
  if r.prefixLen > path.length then Except.ok none
  else
    let p := decodedPath r path
    if isValidUtf8 p then Except.ok (firstMatch r.patterns p)
    else Except.error ()

end Router

/-! ### Application dispatcher (`src/application.rs`) -/

namespace HttpApplication

/-- The prefix-acceptance test of `HttpApplication::handle`:
`path.starts_with(&self.prefix) && (path.len() == self.prefix.len() ||
 path.split_at(self.prefix.len()).1.starts_with('/'))`. -/
def accepts (prefixStr path : List Nat) : Bool :=
  prefixStr.isPrefixOf path
    && (path.length == prefixStr.length
        || (path.drop prefixStr.length).take 1 == [47])

/-- `HttpApplication::handle` (application.rs lines 104-119) restricted to
its accept-or-return-unhandled decision: `Err(req)` hands the request back
to the caller. -/
def handle (prefixStr path : List Nat) : Except (List Nat) Unit :=
  if accepts prefixStr path then Except.ok ()
  else Except.error path

end HttpApplication

/-! ### Route pattern compilation (`Resource::parse` in `src/router.rs`) -/

/-- One element of a parsed path template. -/
inductive PatternElement
  | str (s : List Char)
  | var (s : List Char)
deriving DecidableEq, Repr

namespace Resource

/-- `DEFAULT_PATTERN`: the character class used for a `{name}` segment with
no custom pattern. -/
def defaultPattern : List Char := ['[', '^', '/', ']', '+']

/-- The mutable locals of the `Resource::parse` character loop. -/
structure ParseAcc where
  re1 : List Char
  re2 : List Char
  el : List Char
  inParam : Bool
  inParamPattern : Bool
  paramName : List Char
  paramPattern : List Char
  isDynamic : Bool
  elems : List PatternElement
deriving Repr

/-- One iteration of the `for (index, ch) in pattern.chars().enumerate()`
loop of `Resource::parse`. `esc` is the `regex::escape` function of the
external `regex` crate, applied to one character. -/
def parseStep (esc : Char → List Char) (acc : ParseAcc) (index : Nat) (ch : Char) :
    ParseAcc :=
  if index = 0 ∧ ch = '/' then acc
  else if acc.inParam then
    if ch = '}' then
      { acc with
        elems := acc.elems ++ [PatternElement.var acc.paramName],
        re1 := acc.re1 ++ ['(', '?', 'P', '<'] ++ acc.paramName ++ ['>']
          ++ acc.paramPattern ++ [')'],
        paramName := [],
        paramPattern := defaultPattern,
        inParamPattern := false,
        inParam := false }
    else if ch = ':' then
      { acc with inParamPattern := true, paramPattern := [] }
    else if acc.inParamPattern then
      if ch = ' ' ∧ acc.paramPattern = [] then acc
      else { acc with paramPattern := acc.paramPattern ++ [ch] }
    else { acc with paramName := acc.paramName ++ [ch] }
  else if ch = '{' then
    { acc with inParam := true, isDynamic := true,
               elems := acc.elems ++ [PatternElement.str acc.el], el := [] }
  else
    { acc with re1 := acc.re1 ++ esc ch, re2 := acc.re2 ++ [ch],
               el := acc.el ++ [ch] }

/-- `Resource::parse` (router.rs lines 291-352): compile a path template
with the given prefix into the final pattern string, the element list and
the dynamic flag. -/
def parse (esc : Char → List Char) (pattern : List Char) (prefixStr : List Char) :
    List Char × List PatternElement × Bool :=
  let init : ParseAcc :=
    { re1 := '^' :: prefixStr, re2 := prefixStr, el := [],
      inParam := false, inParamPattern := false, paramName := [],
      paramPattern := defaultPattern, isDynamic := false, elems := [] }
  let fin := (pattern.enum).foldl (fun acc p => parseStep esc acc p.1 p.2) init
  let re := if fin.isDynamic then fin.re1 ++ ['$'] else fin.re2
  (re, fin.elems, fin.isDynamic)

end Resource

/-! ### WebSocket frame codec (`src/ws/frame.rs`) -/

/-- Modelled from the spec: opcode numbering of `ws/proto.rs` (not under
`src/`): 0 continuation, 1 text, 2 binary, 8 close, 9 ping, 10 pong; any
other wire value is `Bad` (§6). -/
inductive OpCode
  | continuation
  | text
  | binary
  | close
  | ping
  | pong
  | bad
deriving DecidableEq, Repr

/-- Modelled from the spec: the `u8 → OpCode` conversion of `ws/proto.rs`
(not under `src/`), per the §6 numbering. -/
def OpCode.fromByte (b : Nat) : OpCode :=
  if b = 0 then OpCode.continuation
  else if b = 1 then OpCode.text
  else if b = 2 then OpCode.binary
  else if b = 8 then OpCode.close
  else if b = 9 then OpCode.ping
  else if b = 10 then OpCode.pong
  else OpCode.bad

/-- Modelled from the spec: the `OpCode → u8` conversion of `ws/proto.rs`
(not under `src/`), per the §6 numbering (`Bad` never leaves `message`; it
is given wire value 0 here). -/
def OpCode.toByte : OpCode → Nat
  | OpCode.continuation => 0
  | OpCode.text => 1
  | OpCode.binary => 2
  | OpCode.close => 8
  | OpCode.ping => 9
  | OpCode.pong => 10
  | OpCode.bad => 0

/-- The WebSocket protocol errors produced by `Frame::parse` (the wrapped
I/O and payload errors of the full taxonomy cannot arise on a pure byte
input). -/
inductive ProtocolError
  | unmaskedFrame
  | maskedFrame
  | invalidOpcode (b : Nat)
  | invalidLength (n : Nat)
  | overflow
deriving DecidableEq, Repr

/-- A parsed WebSocket frame. -/
structure Frame where
  finished : Bool
  rsv1 : Bool
  rsv2 : Bool
  rsv3 : Bool
  opcode : OpCode
  payload : List Nat
deriving DecidableEq, Repr

/-- `Frame::default()`: the defensive close frame. -/
def Frame.default : Frame :=
  { finished := true, rsv1 := false, rsv2 := false, rsv3 := false,
    opcode := OpCode.close, payload := [] }

/-- Modelled from the spec: `apply_mask` of `ws/mask.rs` (not under
`src/`): XOR byte `i` of the payload with byte `i mod 4` of the mask key
(§8.9, glossary "Mask key"). `i` is threaded explicitly. -/
def applyMaskFrom (mask : List Nat) : Nat → List Nat → List Nat
  | _, [] => []
  | i, b :: rest => (b ^^^ mask.getD (i % 4) 0) :: applyMaskFrom mask (i + 1) rest

/-- Modelled from the spec: `apply_mask` applied to a whole payload. -/
def applyMask (payload mask : List Nat) : List Nat :=
  applyMaskFrom mask 0 payload

/-- Big-endian bytes of `n`, `k` bytes wide (the `BigEndian::write_u16` /
`write_u64` output; values are reduced mod `256^k` like the Rust casts). -/
def beBytes : Nat → Nat → List Nat
  | 0, _ => []
  | k + 1, n => beBytes k (n / 256) ++ [n % 256]

/-- `NetworkEndian::read_uint`: big-endian value of a byte list. -/
def beRead (l : List Nat) : Nat :=
  l.foldl (fun a b => a * 256 + b) 0

namespace Frame

/-- `Frame::message` (frame.rs lines 170-227). The random 4-byte mask key
drawn by `rand::random()` in the `genmask` branch is passed in as `mask`. -/
def message (payload : List Nat) (code : OpCode) (finished genmask : Bool)
    (mask : List Nat) : List Nat :=
  let one := if finished then 128 ||| code.toByte else code.toByte
  let payloadLen := payload.length
  let two := if genmask then 128 else 0
  let header :=
    if payloadLen < 126 then [one, two ||| payloadLen]
    else if payloadLen ≤ 65535 then [one, two ||| 126] ++ beBytes 2 payloadLen
    else [one, two ||| 127] ++ beBytes 8 payloadLen
  if genmask then header ++ mask ++ applyMask payload mask
  else header ++ payload

/-- Result of `Frame::parse` on a complete, terminated input stream:
`ready` is `Ok(Async::Ready(Some(frame)))`, `ended` is
`Ok(Async::Ready(None))` (the stream ended mid-frame), and `err` is an
early protocol-error return. -/
inductive ParseOut
  | ready (f : Frame)
  | ended
  | err (e : ProtocolError)
deriving DecidableEq, Repr

/-- `Frame::parse` (frame.rs lines 55-167) over a complete terminated byte
stream `input` (so the `PayloadHelper` reads that run short of data return
`Ready(None)`, modelled as `ended`). -/
def parse (input : List Nat) (server : Bool) (maxSize : Nat) : ParseOut :=
  if input.length < 2 then ParseOut.ended
  else
    let first := input.getD 0 0
    let second := input.getD 1 0
    let finished : Bool := first &&& 128 ≠ 0
    let masked : Bool := second &&& 128 ≠ 0
    if !masked && server then ParseOut.err ProtocolError.unmaskedFrame
    else if masked && !server then ParseOut.err ProtocolError.maskedFrame
    else
      let rsv1 : Bool := first &&& 64 ≠ 0
      let rsv2 : Bool := first &&& 32 ≠ 0
      let rsv3 : Bool := first &&& 16 ≠ 0
      let opcode := OpCode.fromByte (first &&& 15)
      let len := second &&& 127
      let lenStep : Option (Nat × Nat) :=
        if len = 126 then
          if input.length < 4 then none
          else some (beRead ((input.drop 2).take 2), 4)
        else if len = 127 then
          if input.length < 10 then none
          else some (beRead ((input.drop 2).take 8), 10)
        else some (len, 2)
      match lenStep with
      | none => ParseOut.ended
      | some (length, idx0) =>
        if length > maxSize then ParseOut.err ProtocolError.overflow
        else
          let maskStep : Option (Option (List Nat) × Nat) :=
            if server then
              if input.length < idx0 + 4 then none
              else some (some ((input.drop idx0).take 4), idx0 + 4)
            else some (none, idx0)
          match maskStep with
          | none => ParseOut.ended
          | some (maskBytes, idx) =>
            if input.length < idx + length then ParseOut.ended
            else
              let data := (input.drop idx).take length
              if opcode = OpCode.bad then
                ParseOut.err (ProtocolError.invalidOpcode (first &&& 15))
              else if (opcode = OpCode.ping ∨ opcode = OpCode.pong) ∧ length > 125 then
                ParseOut.err (ProtocolError.invalidLength length)
              else if opcode = OpCode.close ∧ length > 125 then
                ParseOut.ready Frame.default
              else
                let payload := match maskBytes with
                  | some m => applyMask data m
                  | none => data
                ParseOut.ready
                  { finished, rsv1, rsv2, rsv3, opcode, payload }

end Frame

/-! ### Connector message handling and waiters (`src/client/connector.rs`) -/

/-- The URI schemes the connector supports. -/
inductive Protocol
  | http
  | https
  | ws
  | wss
deriving DecidableEq, Repr

namespace Protocol

/-- `Protocol::from`. -/
def fromScheme (s : String) : Option Protocol :=
  if s = "http" then some Protocol.http
  else if s = "https" then some Protocol.https
  else if s = "ws" then some Protocol.ws
  else if s = "wss" then some Protocol.wss
  else none

/-- `Protocol::is_http`. -/
def isHttp : Protocol → Bool
  | Protocol.https | Protocol.http => true
  | _ => false

/-- `Protocol::is_secure`. -/
def isSecure : Protocol → Bool
  | Protocol.https | Protocol.wss => true
  | _ => false

/-- `Protocol::port`. -/
def port : Protocol → Nat
  | Protocol.http | Protocol.ws => 80
  | Protocol.https | Protocol.wss => 443

end Protocol

/-- The connection pool `Key`: `(host, port, ssl)`. -/
structure Key where
  host : String
  port : Nat
  ssl : Bool
deriving DecidableEq, Repr

/-- A `Waiter` queue entry: the oneshot sender is modelled by its identity
`txId` plus the `is_canceled` oracle; `wait` is the absolute deadline. -/
structure Waiter where
  txId : Nat
  wait : Nat
  connTimeout : Nat
  cancelled : Bool
deriving DecidableEq, Repr

/-- `AcquiredConn(Key, Option<Rc<Pool>>)`: the pool back-reference a
`Connection` carries; `hasPoolRc` is whether the `Rc<Pool>` is present. -/
structure AcquiredConn where
  key : Key
  hasPoolRc : Bool
deriving DecidableEq, Repr

/-- The three shared buffers of `Pool` that `Connection::release`/`close`
push into. -/
structure PoolBufs where
  keys : List Key
  toCloseBuf : List (ConnInfo Key)
  toReleaseBuf : List (ConnInfo Key)
deriving DecidableEq, Repr

/-- `AcquiredConn::release`: pushes into `Pool::to_release` only when the
`Rc<Pool>` back-reference is present. -/
def AcquiredConn.releaseConn (a : AcquiredConn) (c : ConnInfo Key) (b : PoolBufs) :
    PoolBufs :=
  if a.hasPoolRc then { b with toReleaseBuf := b.toReleaseBuf ++ [c] } else b

/-- `Connection::release`: delegates to the `AcquiredConn` back-reference
when one is present, otherwise does nothing. -/
def Connection.releaseToPool (pool : Option AcquiredConn) (c : ConnInfo Key)
    (b : PoolBufs) : PoolBufs :=
  match pool with
  | some a => a.releaseConn c b
  | none => b

/-- The model of a URI as the connector reads it. -/
structure UriM where
  scheme : Option String
  host : Option String
  port : Option Nat
deriving DecidableEq, Repr

/-- The connector-actor state touched by `Handler<Connect>::handle`. -/
structure CState where
  pool : PoolState Key
  waiters : List (Key × List Waiter)
  hasOpenssl : Bool
  hasTls : Bool
deriving DecidableEq, Repr

/-- Outcome of `Handler<Connect>::handle`: an immediate error reply, reuse
of a pooled connection, enqueueing a waiter, or a dial carrying the
`AcquiredConn` that the new `Connection` will hold. -/
inductive ConnectOutcome
  | errInvalidUrl
  | errSslNotSupported
  | reuse (c : ConnInfo Key)
  | enqueued
  | dial (conn : AcquiredConn)
deriving DecidableEq, Repr

namespace ClientConnector

/-- `Handler<Connect>::handle` (connector.rs lines 502-572), with the
entry `collect` pass (drained separately by `collect`), the pool task
registration and the wait-timeout arming elided as I/O plumbing. `txId`
names the oneshot channel created for a waiter. -/
def handleConnect (now : Nat) (uri : UriM) (waitTime connTimeout txId : Nat)
    (s : CState) : ConnectOutcome × CState :=
  if uri.host.isNone then (ConnectOutcome.errInvalidUrl, s)
  else
    match uri.scheme with
    | none => (ConnectOutcome.errInvalidUrl, s)
    | some sch =>
      match Protocol.fromScheme sch with
      | none => (ConnectOutcome.errInvalidUrl, s)
      | some proto =>
        if proto.isSecure && !s.hasOpenssl && !s.hasTls then
          (ConnectOutcome.errSslNotSupported, s)
        else
          let host := uri.host.getD ""
          let port := uri.port.getD proto.port
          let key : Key := { host, port, ssl := proto.isSecure }
          if proto.isHttp then
            match acquire now key s.pool with
            | (Acquire.acquired c, p') => (ConnectOutcome.reuse c, { s with pool := p' })
            | (Acquire.notAvailable, p') =>
              let waiter : Waiter :=
                { txId, wait := now + waitTime, connTimeout, cancelled := false }
              let q := (alGet s.waiters key).getD [] ++ [waiter]
              (ConnectOutcome.enqueued,
                { s with pool := p', waiters := alInsert s.waiters key q })
            | (Acquire.available, p') =>
              (ConnectOutcome.dial { key, hasPoolRc := true }, { s with pool := p' })
          else (ConnectOutcome.dial { key, hasPoolRc := false }, s)

/-- `VecDeque::swap_remove_back(idx)`: swap the element at `idx` with the
back element, then pop the back. -/
def swapRemoveBack {α : Type} (l : List α) (idx : Nat) : List α :=
  match l.getLast? with
  | none => []
  | some last => (l.set idx last).dropLast

/-- The per-key `while idx < waiters.len()` loop of
`ClientConnector::collect_waiters` (connector.rs lines 458-484): expired
waiters are completed with `Timeout` and removed with `swap_remove_back`;
the first component is the surviving queue, the second the expired waiters
(the earliest-deadline timer bookkeeping is elided). -/
def expiryLoop (now : Nat) (ws : List Waiter) (idx : Nat) (expired : List Waiter) :
    List Waiter × List Waiter :=
  if h : idx < ws.length then
    let w := ws[idx]
    if w.wait ≤ now then
      expiryLoop now (swapRemoveBack ws idx) idx (expired ++ [w])
    else
      expiryLoop now ws (idx + 1) expired
  else (ws, expired)
termination_by ws.length - idx
decreasing_by
  · have hne : ws ≠ [] := by
      intro he; subst he; simp at h
    have hlen : (swapRemoveBack ws idx).length = ws.length - 1 := by
      cases hl : ws.getLast? with
      | none => exact absurd (List.getLast?_eq_none_iff.mp hl) hne
      | some last => simp [swapRemoveBack, hl]
    rw [hlen]
    omega
  · omega

variable {K : Type} [DecidableEq K]

/-- The per-key `while let Some(waiter) = waiters.pop_front()` loop of
`Maintenance::poll` (connector.rs lines 657-674): cancelled waiters are
dropped, a waiter is granted on `Acquired` (reuse) or `Available` (an
asynchronous dial is spawned for it), and on `NotAvailable` the waiter is
pushed back to the front and the loop stops. Returns the final pool state,
the remaining queue and the granted waiters in grant order. -/
def grantLoop (now : Nat) (key : K) (s : PoolState K) :
    List Waiter → PoolState K × List Waiter × List Waiter
  | [] => (s, [], [])
  | w :: rest =>
    if w.cancelled then grantLoop now key s rest
    else
      match acquire now key s with
      | (Acquire.acquired _, s1) =>
        let r := grantLoop now key s1 rest
        (r.1, r.2.1, w :: r.2.2)
      | (Acquire.available, s1) =>
        let r := grantLoop now key s1 rest
        (r.1, r.2.1, w :: r.2.2)
      | (Acquire.notAvailable, s1) => (s1, w :: rest, [])

end ClientConnector

/-! ### Association-list lemmas -/

section AListLemmas

variable {K : Type} [DecidableEq K] {V : Type}

theorem sumVals_cons (p : K × Nat) (m : List (K × Nat)) :
    sumVals (p :: m) = p.2 + sumVals m := by
  simp [sumVals]

theorem alGet_le_sumVals {m : List (K × Nat)} {k : K} {n : Nat}
    (h : alGet m k = some n) : n ≤ sumVals m := by
  induction m with
  | nil => simp [alGet] at h
  | cons p rest ih =>
    rw [alGet] at h
    by_cases hp : p.1 = k
    · rw [if_pos hp] at h
      cases h
      rw [sumVals_cons]
      exact Nat.le_add_right _ _
    · rw [if_neg hp] at h
      rw [sumVals_cons]
      exact Nat.le_add_left _ _ |>.trans' (ih h) |>.trans (Nat.le_refl _)

theorem sumVals_alInsert_some {m : List (K × Nat)} {k : K} {n : Nat} (v : Nat)
    (h : alGet m k = some n) :
    sumVals (alInsert m k v) + n = sumVals m + v := by
  induction m with
  | nil => simp [alGet] at h
  | cons p rest ih =>
    rw [alGet] at h
    by_cases hp : p.1 = k
    · rw [if_pos hp] at h
      cases h
      rw [alInsert, if_pos hp, sumVals_cons, sumVals_cons]
      omega
    · rw [if_neg hp] at h
      rw [alInsert, if_neg hp, sumVals_cons, sumVals_cons]
      have := ih h
      omega

theorem sumVals_alInsert_none {m : List (K × Nat)} {k : K} (v : Nat)
    (h : alGet m k = none) :
    sumVals (alInsert m k v) = sumVals m + v := by
  induction m with
  | nil => simp [alInsert, sumVals]
  | cons p rest ih =>
    rw [alGet] at h
    by_cases hp : p.1 = k
    · rw [if_pos hp] at h; cases h
    · rw [if_neg hp] at h
      rw [alInsert, if_neg hp, sumVals_cons, sumVals_cons, ih h]
      omega

theorem sumVals_alRemove {m : List (K × Nat)} {k : K} {n : Nat}
    (h : alGet m k = some n) :
    sumVals (alRemove m k) + n = sumVals m := by
  induction m with
  | nil => simp [alGet] at h
  | cons p rest ih =>
    rw [alGet] at h
    by_cases hp : p.1 = k
    · rw [if_pos hp] at h
      cases h
      rw [alRemove, if_pos hp, sumVals_cons]
      omega
    · rw [if_neg hp] at h
      rw [alRemove, if_neg hp, sumVals_cons, sumVals_cons]
      have := ih h
      omega

theorem alGet_alInsert_self (m : List (K × V)) (k : K) (v : V) :
    alGet (alInsert m k v) k = some v := by
  induction m with
  | nil => simp [alInsert, alGet]
  | cons p rest ih =>
    by_cases hp : p.1 = k
    · rw [alInsert, if_pos hp, alGet, if_pos rfl]
    · rw [alInsert, if_neg hp, alGet, if_neg hp, ih]

theorem alGet_alInsert_ne (m : List (K × V)) {k k' : K} (v : V) (h : k' ≠ k) :
    alGet (alInsert m k v) k' = alGet m k' := by
  have hne : ¬ k = k' := fun he => h he.symm
  induction m with
  | nil =>
    simp only [alInsert, alGet]
    rw [if_neg hne]
  | cons p rest ih =>
    by_cases hp : p.1 = k
    · rw [alInsert, if_pos hp, alGet, if_neg hne, alGet,
        if_neg (fun he => hne (hp.symm.trans he))]
    · rw [alInsert, if_neg hp, alGet, alGet, ih]

theorem alGet_eq_none_of_not_mem {m : List (K × V)} {k : K}
    (h : k ∉ m.map Prod.fst) : alGet m k = none := by
  induction m with
  | nil => rfl
  | cons p rest ih =>
    simp only [List.map_cons, List.mem_cons] at h
    push_neg at h
    rw [alGet, if_neg (fun he => h.1 he.symm), ih h.2]

theorem alGet_alRemove_self {m : List (K × V)} {k : K}
    (hnd : (m.map Prod.fst).Nodup) : alGet (alRemove m k) k = none := by
  induction m with
  | nil => rfl
  | cons p rest ih =>
    simp only [List.map_cons, List.nodup_cons] at hnd
    by_cases hp : p.1 = k
    · rw [alRemove, if_pos hp]
      subst hp
      exact alGet_eq_none_of_not_mem hnd.1
    · rw [alRemove, if_neg hp, alGet, if_neg hp, ih hnd.2]

theorem alGet_alRemove_ne (m : List (K × V)) {k k' : K} (h : k' ≠ k) :
    alGet (alRemove m k) k' = alGet m k' := by
  induction m with
  | nil => rfl
  | cons p rest ih =>
    by_cases hp : p.1 = k
    · rw [alRemove, if_pos hp, alGet, if_neg (fun he => h (hp.symm.trans he).symm)]
    · rw [alRemove, if_neg hp, alGet, alGet, ih]

theorem mem_keys_alInsert {m : List (K × V)} {k x : K} (v : V)
    (h : x ∈ (alInsert m k v).map Prod.fst) : x = k ∨ x ∈ m.map Prod.fst := by
  induction m with
  | nil => simpa [alInsert] using h
  | cons p rest ih =>
    by_cases hp : p.1 = k
    · rw [alInsert, if_pos hp] at h
      simp only [List.map_cons, List.mem_cons] at h ⊢
      tauto
    · rw [alInsert, if_neg hp] at h
      simp only [List.map_cons, List.mem_cons] at h ⊢
      rcases h with h | h
      · tauto
      · rcases ih h with h' | h' <;> tauto

theorem nodupKeys_alInsert {m : List (K × V)} {k : K} (v : V)
    (hnd : (m.map Prod.fst).Nodup) : ((alInsert m k v).map Prod.fst).Nodup := by
  induction m with
  | nil => simp [alInsert]
  | cons p rest ih =>
    simp only [List.map_cons, List.nodup_cons] at hnd
    by_cases hp : p.1 = k
    · rw [alInsert, if_pos hp]
      subst hp
      simpa using hnd
    · rw [alInsert, if_neg hp]
      simp only [List.map_cons, List.nodup_cons]
      refine ⟨fun hmem => ?_, ih hnd.2⟩
      rcases mem_keys_alInsert v hmem with h' | h'
      · exact hp h'
      · exact hnd.1 h'

theorem alRemove_sublist (m : List (K × V)) (k : K) :
    List.Sublist (alRemove m k) m := by
  induction m with
  | nil => exact List.Sublist.refl _
  | cons p rest ih =>
    by_cases hp : p.1 = k
    · rw [alRemove, if_pos hp]
      exact List.sublist_cons_self _ _
    · rw [alRemove, if_neg hp]
      exact ih.cons₂ _

theorem nodupKeys_alRemove {m : List (K × V)} {k : K}
    (hnd : (m.map Prod.fst).Nodup) : ((alRemove m k).map Prod.fst).Nodup :=
  ((alRemove_sublist m k).map Prod.fst).nodup hnd

end AListLemmas

/-! ### Pool accounting lemmas -/

namespace ClientConnector

variable {K : Type} [DecidableEq K]

theorem releaseKey_step (s : PoolState K) (k : K)
    (hnd : (s.acquiredPerHost.map Prod.fst).Nodup)
    (hpos : 1 ≤ (alGet s.acquiredPerHost k).getD 0) :
    (alGet (releaseKey k s).acquiredPerHost k).getD 0
        = (alGet s.acquiredPerHost k).getD 0 - 1
    ∧ (∀ k', k' ≠ k →
        alGet (releaseKey k s).acquiredPerHost k' = alGet s.acquiredPerHost k')
    ∧ ((releaseKey k s).acquiredPerHost.map Prod.fst).Nodup
    ∧ (inv s → inv (releaseKey k s)) := by
  match hget : alGet s.acquiredPerHost k with
  | none => rw [hget] at hpos; simp at hpos
  | some ph =>
    have hph : 1 ≤ ph := by rw [hget] at hpos; simpa using hpos
    have hsum : ph ≤ sumVals s.acquiredPerHost := alGet_le_sumVals hget
    unfold releaseKey
    simp only [hget]
    by_cases hgt : ph > 1
    · rw [if_pos hgt]
      refine ⟨?_, ?_, ?_, ?_⟩
      · simp [alGet_alInsert_self, hget]
      · intro k' hk'
        simp [alGet_alInsert_ne _ _ hk']
      · exact nodupKeys_alInsert _ hnd
      · intro hinv
        unfold inv at hinv ⊢
        simp only
        have := sumVals_alInsert_some (m := s.acquiredPerHost) (k := k)
          (ph - 1) hget
        omega
    · rw [if_neg hgt]
      refine ⟨?_, ?_, ?_, ?_⟩
      · have h0 : alGet (alRemove s.acquiredPerHost k) k = none :=
          alGet_alRemove_self hnd
        simp only [h0, Option.getD_none, hget, Option.getD_some]
        omega
      · intro k' hk'
        simp [alGet_alRemove_ne _ hk']
      · exact nodupKeys_alRemove hnd
      · intro hinv
        unfold inv at hinv ⊢
        simp only
        have := sumVals_alRemove hget
        omega

theorem foldl_release_general {α : Type} (keyOf : α → K)
    (f : PoolState K → α → PoolState K)
    (hf : ∀ s a, (f s a).acquired = (releaseKey (keyOf a) s).acquired
        ∧ (f s a).acquiredPerHost = (releaseKey (keyOf a) s).acquiredPerHost)
    (l : List α) :
    ∀ s : PoolState K, (s.acquiredPerHost.map Prod.fst).Nodup →
    (∀ k ∈ l.map keyOf, (l.map keyOf).count k ≤ (alGet s.acquiredPerHost k).getD 0) →
    inv s →
    inv (l.foldl f s) ∧ ((l.foldl f s).acquiredPerHost.map Prod.fst).Nodup ∧
    ∀ k, (alGet (l.foldl f s).acquiredPerHost k).getD 0
        = (alGet s.acquiredPerHost k).getD 0 - (l.map keyOf).count k := by
  induction l with
  | nil =>
    intro s hnd _ hinv
    exact ⟨hinv, hnd, fun k => by simp⟩
  | cons a rest ih =>
    intro s hnd hrel hinv
    have hposa : 1 ≤ (alGet s.acquiredPerHost (keyOf a)).getD 0 := by
      have hmem : keyOf a ∈ (a :: rest).map keyOf := by simp
      have := hrel _ hmem
      have hcount : 1 ≤ ((a :: rest).map keyOf).count (keyOf a) := by
        rw [List.map_cons, List.count_cons_self]
        omega
      omega
    obtain ⟨hself, hother, hnd', hinv'⟩ := releaseKey_step s (keyOf a) hnd hposa
    have hfa := hf s a
    have hinvfa : inv (f s a) := by
      unfold inv
      rw [hfa.1, hfa.2]
      exact hinv' hinv
    have hndfa : ((f s a).acquiredPerHost.map Prod.fst).Nodup := by
      rw [hfa.2]; exact hnd'
    have hgetfa : ∀ k, (alGet (f s a).acquiredPerHost k).getD 0
        = (alGet s.acquiredPerHost k).getD 0
          - (if k = keyOf a then 1 else 0) := by
      intro k
      rw [hfa.2]
      by_cases hk : k = keyOf a
      · rw [if_pos hk, hk]; exact hself
      · rw [if_neg hk, hother k hk]; simp
    have hcc : ∀ k, ((a :: rest).map keyOf).count k
        = (rest.map keyOf).count k + (if k = keyOf a then 1 else 0) := by
      intro k
      rw [List.map_cons, List.count_cons]
      by_cases hk : k = keyOf a
      · rw [if_pos hk]
        simp [hk]
      · have hk2 : ¬ keyOf a = k := fun h => hk h.symm
        rw [if_neg hk]
        simp [hk2]
    have hrel' : ∀ k ∈ rest.map keyOf,
        (rest.map keyOf).count k ≤ (alGet (f s a).acquiredPerHost k).getD 0 := by
      intro k hk
      have hk' : k ∈ (a :: rest).map keyOf := by
        rw [List.map_cons]
        exact List.mem_cons_of_mem _ hk
      have htot := hrel k hk'
      rw [hcc k] at htot
      rw [hgetfa k]
      omega
    obtain ⟨h1, h2, h3⟩ := ih (f s a) hndfa hrel' hinvfa
    rw [List.foldl_cons]
    refine ⟨h1, h2, fun k => ?_⟩
    rw [h3 k, hgetfa k, hcc k]
    omega

theorem count_le_of_releasable {m : List (K × Nat)} {ks : List K}
    (h : Releasable m ks) (k : K) : ks.count k ≤ (alGet m k).getD 0 := by
  by_cases hk : k ∈ ks
  · exact h k hk
  · rw [List.count_eq_zero_of_not_mem hk]
    exact Nat.zero_le _

theorem count_append_three (ks1 ks2 ks3 : List K) (k : K) :
    (ks1 ++ ks2 ++ ks3).count k = ks1.count k + ks2.count k + ks3.count k := by
  simp only [List.count_append]

theorem inv_collectModified (now : Nat) (poolKeys : List K)
    (poolClose poolRelease : List (ConnInfo K)) (s : PoolState K)
    (hnd : (s.acquiredPerHost.map Prod.fst).Nodup)
    (hrel : Releasable s.acquiredPerHost (releasedKeys poolKeys poolClose poolRelease))
    (hinv : inv s) :
    inv (collectModified now poolKeys poolClose poolRelease s) := by
  have hcount := fun k => count_le_of_releasable hrel k
  simp only [releasedKeys, count_append_three] at hcount
  unfold collectModified
  -- phase 1: the half-acquired keys
  obtain ⟨hinv1, hnd1, hget1⟩ :=
    foldl_release_general id (fun acc k => releaseKey k acc)
      (fun st k => ⟨rfl, rfl⟩) poolKeys s hnd
      (by
        intro k _
        have := hcount k
        simp only [List.map_id]
        omega) hinv
  simp only [List.map_id] at hget1
  -- phase 2: the connections to close
  set s1 := poolKeys.foldl (fun acc k => releaseKey k acc) s with hs1
  obtain ⟨hinv2, hnd2, hget2⟩ :=
    foldl_release_general (fun c : ConnInfo K => c.key)
      (fun acc c =>
        let acc' := releaseKey c.key acc
        { acc' with toClose := acc'.toClose ++ [c] })
      (fun st c => ⟨rfl, rfl⟩) poolClose s1 hnd1
      (by
        intro k _
        rw [hget1 k]
        have := hcount k
        omega) hinv1
  -- phase 3: the released connections
  set s2 := poolClose.foldl
    (fun acc c =>
      let acc' := releaseKey c.key acc
      { acc' with toClose := acc'.toClose ++ [c] }) s1 with hs2
  obtain ⟨hinv3, _, _⟩ :=
    foldl_release_general (fun c : ConnInfo K => c.key)
      (fun acc c =>
        let acc' := releaseKey c.key acc
        if now - c.ts < acc'.connLifetime then
          let bucket := (alGet acc'.available c.key).getD [] ++ [IdleConn.mk now c]
          { acc' with available := alInsert acc'.available c.key bucket }
        else acc')
      (by
        intro st c
        constructor <;> (dsimp only; split <;> rfl)) poolRelease s2 hnd2
      (by
        intro k _
        rw [hget2 k, hget1 k]
        have := hcount k
        omega) hinv2
  exact hinv3

theorem inv_reserve (s : PoolState K) (k : K) (hinv : inv s) :
    inv (reserve k s) := by
  unfold inv reserve at *
  cases hget : alGet s.acquiredPerHost k with
  | none =>
    simp only [hget]
    rw [sumVals_alInsert_none _ hget]
    omega
  | some ph =>
    simp only [hget]
    have := sumVals_alInsert_some (m := s.acquiredPerHost) (ph + 1) hget
    omega

theorem inv_releaseKey_held (s : PoolState K) (k : K) (ph : Nat)
    (hget : alGet s.acquiredPerHost k = some ph) (hph : 1 ≤ ph) (hinv : inv s) :
    inv (releaseKey k s) := by
  have hsum : ph ≤ sumVals s.acquiredPerHost := alGet_le_sumVals hget
  unfold inv releaseKey at *
  simp only [hget]
  by_cases hgt : ph > 1
  · rw [if_pos hgt]
    have := sumVals_alInsert_some (m := s.acquiredPerHost) (ph - 1) hget
    simp only
    omega
  · rw [if_neg hgt]
    have := sumVals_alRemove hget
    simp only
    omega

theorem inv_collect (now : Nat) (periodic modified : Bool) (poolKeys : List K)
    (poolClose poolRelease : List (ConnInfo K)) (s : PoolState K)
    (hnd : (s.acquiredPerHost.map Prod.fst).Nodup)
    (hrel : Releasable s.acquiredPerHost (releasedKeys poolKeys poolClose poolRelease))
    (hinv : inv s) :
    inv (collect now periodic modified poolKeys poolClose poolRelease s) := by
  unfold collect
  have h1 : inv (if modified then collectModified now poolKeys poolClose poolRelease s
      else s) := by
    cases modified with
    | true => simpa using inv_collectModified now poolKeys poolClose poolRelease s hnd hrel hinv
    | false => simpa using hinv
  cases periodic with
  | true => simpa [inv] using h1
  | false => simpa [inv] using h1

theorem evictBucket_eq (now ka lt : Nat) (l : List (IdleConn K)) :
    evictBucket now ka lt l
      = ((l.takeWhile (staleAt now ka lt)).map (·.conn),
         l.dropWhile (staleAt now ka lt)) := by
  induction l with
  | nil => rfl
  | cons e rest ih =>
    cases hs : staleAt now ka lt e with
    | true => simp [evictBucket, hs, List.takeWhile_cons, List.dropWhile_cons, ih]
    | false => simp [evictBucket, hs, List.takeWhile_cons, List.dropWhile_cons]

end ClientConnector

section MoreAListLemmas

variable {K : Type} [DecidableEq K] {V W : Type}

theorem alGet_map_val (g : V → W) (m : List (K × V)) (k : K) :
    alGet (m.map (fun p => (p.1, g p.2))) k = (alGet m k).map g := by
  induction m with
  | nil => rfl
  | cons p rest ih =>
    by_cases hp : p.1 = k
    · simp [alGet, hp]
    · simp [alGet, hp, ih]

theorem alGet_some_mem {m : List (K × V)} {k : K} {v : V}
    (h : alGet m k = some v) : (k, v) ∈ m := by
  induction m with
  | nil => cases h
  | cons p rest ih =>
    rw [alGet] at h
    by_cases hp : p.1 = k
    · rw [if_pos hp] at h
      cases h
      have hpk : p = (k, p.2) := by
        cases p
        simp_all
      rw [← hpk]
      exact List.mem_cons_self _ _
    · rw [if_neg hp] at h
      exact List.mem_cons_of_mem _ (ih h)

end MoreAListLemmas

/-! ### Router lemmas -/

namespace Router

theorem firstMatch_some {pats : List RPattern} {p : List Nat} :
    ∀ {i : Nat}, firstMatch pats p = some i →
    ∃ pat, pats[i]? = some pat ∧ pat.matches p = true
      ∧ ∀ j pat', j < i → pats[j]? = some pat' → pat'.matches p = false := by
  induction pats with
  | nil => intro i h; cases h
  | cons pat rest ih =>
    intro i h
    rw [firstMatch] at h
    cases hm : pat.matches p with
    | true =>
      rw [if_pos hm] at h
      cases h
      exact ⟨pat, by simp, hm, fun j pat' hj => by omega⟩
    | false =>
      rw [if_neg (by simp [hm])] at h
      rcases Option.map_eq_some'.mp h with ⟨i', hi', rfl⟩
      obtain ⟨pat', hget, hmatch, hlow⟩ := ih hi'
      refine ⟨pat', by simpa using hget, hmatch, ?_⟩
      intro j patj hj hgj
      cases j with
      | zero =>
        simp only [List.getElem?_cons_zero] at hgj
        cases hgj
        exact hm
      | succ j' =>
        simp only [List.getElem?_cons_succ] at hgj
        exact hlow j' patj (by omega) hgj

theorem firstMatch_none {pats : List RPattern} {p : List Nat} :
    firstMatch pats p = none →
    ∀ (j : Nat) (patj : RPattern), pats[j]? = some patj → patj.matches p = false := by
  induction pats with
  | nil => intro _ j patj hg; cases hg
  | cons pat rest ih =>
    intro h j patj hg
    rw [firstMatch] at h
    cases hm : pat.matches p with
    | true => rw [if_pos hm] at h; cases h
    | false =>
      rw [if_neg (by simp [hm])] at h
      have h' : firstMatch rest p = none := Option.map_eq_none'.mp h
      cases j with
      | zero =>
        simp only [List.getElem?_cons_zero] at hg
        cases hg
        exact hm
      | succ j' =>
        simp only [List.getElem?_cons_succ] at hg
        exact ih h' j' patj hg

end Router

/-! ### Waiter-queue lemmas -/

namespace ClientConnector

theorem swapRemoveBack_length {α : Type} (l : List α) (idx : Nat) (hne : l ≠ []) :
    (swapRemoveBack l idx).length = l.length - 1 := by
  cases hl : l.getLast? with
  | none => exact absurd (List.getLast?_eq_none_iff.mp hl) hne
  | some last => simp [swapRemoveBack, hl]

theorem swapRemoveBack_perm {α : Type} (l : List α) (idx : Nat) (h : idx < l.length) :
    (swapRemoveBack l idx).Perm (l.eraseIdx idx) := by
  have hne : l ≠ [] := by intro he; subst he; simp at h
  obtain ⟨last, hl⟩ : ∃ a, l.getLast? = some a := by
    cases hl : l.getLast? with
    | none => exact absurd (List.getLast?_eq_none_iff.mp hl) hne
    | some a => exact ⟨a, rfl⟩
  unfold swapRemoveBack
  rw [hl]
  dsimp only
  rw [List.set_eq_take_cons_drop last h, List.eraseIdx_eq_take_drop_succ]
  cases hd : l.drop (idx + 1) with
  | nil => simp
  | cons d ds =>
    have hlast2 : (d :: ds).getLast? = some last := by
      calc (d :: ds).getLast? = (l.take (idx + 1) ++ d :: ds).getLast? :=
            (List.getLast?_append_cons _ d ds).symm
        _ = l.getLast? := by rw [← hd, List.take_append_drop]
        _ = some last := hl
    have hsplit : (d :: ds).dropLast ++ [last] = d :: ds :=
      List.dropLast_append_getLast? last hlast2
    have hdl : (l.take idx ++ last :: d :: ds).dropLast
        = l.take idx ++ last :: (d :: ds).dropLast := by
      simp [List.dropLast_append]
    rw [hdl]
    have hper : (last :: (d :: ds).dropLast).Perm (d :: ds) := by
      conv_rhs => rw [← hsplit]
      exact (List.perm_append_singleton _ _).symm
    exact List.Perm.append_left _ hper

theorem swapRemoveBack_getElem_lt {α : Type} (l : List α) (idx j : Nat)
    (h : idx < l.length) (hj : j < idx) : (swapRemoveBack l idx)[j]? = l[j]? := by
  have hne : l ≠ [] := by intro he; subst he; simp at h
  obtain ⟨last, hl⟩ : ∃ a, l.getLast? = some a := by
    cases hl : l.getLast? with
    | none => exact absurd (List.getLast?_eq_none_iff.mp hl) hne
    | some a => exact ⟨a, rfl⟩
  unfold swapRemoveBack
  rw [hl]
  dsimp only
  rw [List.set_eq_take_cons_drop last h]
  have hjlen : j < (l.take idx).length := by
    rw [List.length_take]
    omega
  cases hd : l.drop (idx + 1) with
  | nil =>
    rw [show (l.take idx ++ [last] : List α).dropLast = l.take idx by simp]
    rw [List.getElem?_take]
    simp [hj]
  | cons d ds =>
    rw [show (l.take idx ++ last :: d :: ds).dropLast
        = l.take idx ++ last :: (d :: ds).dropLast by simp [List.dropLast_append]]
    rw [List.getElem?_append_left hjlen]
    rw [List.getElem?_take]
    simp [hj]

theorem filter_eraseIdx_of_neg {α : Type} (p : α → Bool) (l : List α) (idx : Nat)
    (w : α) (hw : l[idx]? = some w) (hp : p w = false) :
    (l.eraseIdx idx).filter p = l.filter p := by
  induction l generalizing idx with
  | nil => cases hw
  | cons a rest ih =>
    cases idx with
    | zero =>
      simp only [List.getElem?_cons_zero, Option.some.injEq] at hw
      subst hw
      simp [List.eraseIdx, List.filter_cons, hp]
    | succ i =>
      simp only [List.getElem?_cons_succ] at hw
      cases hpa : p a <;> simp [List.eraseIdx, List.filter_cons, hpa, ih i hw]

theorem expiryLoop_perm (now : Nat) :
    ∀ (n : Nat) (ws : List Waiter) (idx : Nat) (expired : List Waiter),
      ws.length - idx ≤ n →
      (∀ j, j < idx → ∀ w, ws[j]? = some w → now < w.wait) →
      ((expiryLoop now ws idx expired).1).Perm
        (ws.filter (fun w => decide (now < w.wait))) := by
  intro n
  induction n with
  | zero =>
    intro ws idx expired hm hinv
    have hge : ¬ idx < ws.length := by omega
    rw [expiryLoop, dif_neg hge]
    have hall : ∀ w ∈ ws, decide (now < w.wait) = true := by
      intro w hw
      obtain ⟨j, hjlt, hjw⟩ := List.getElem_of_mem hw
      have hj : ws[j]? = some w := by
        rw [List.getElem?_eq_getElem hjlt, hjw]
      simpa using hinv j (by omega) w hj
    rw [List.filter_eq_self.mpr hall]
  | succ n ih =>
    intro ws idx expired hm hinv
    by_cases hlt : idx < ws.length
    · rw [expiryLoop, dif_pos hlt]
      dsimp only
      by_cases hexp : ws[idx].wait ≤ now
      · rw [if_pos hexp]
        have hne : ws ≠ [] := by intro he; subst he; simp at hlt
        have hperm1 : ((expiryLoop now (swapRemoveBack ws idx) idx
            (expired ++ [ws[idx]])).1).Perm
            ((swapRemoveBack ws idx).filter (fun w => decide (now < w.wait))) := by
          apply ih
          · rw [swapRemoveBack_length ws idx hne]
            omega
          · intro j hj w hjw
            rw [swapRemoveBack_getElem_lt ws idx j hlt hj] at hjw
            exact hinv j hj w hjw
        refine hperm1.trans ?_
        have hperm2 : ((swapRemoveBack ws idx).filter
            (fun w => decide (now < w.wait))).Perm
            ((ws.eraseIdx idx).filter (fun w => decide (now < w.wait))) :=
          (swapRemoveBack_perm ws idx hlt).filter _
        refine hperm2.trans ?_
        rw [filter_eraseIdx_of_neg _ ws idx ws[idx]
          (List.getElem?_eq_getElem hlt) (by simpa using hexp)]
      · rw [if_neg hexp]
        apply ih
        · omega
        · intro j hj w hjw
          rcases Nat.lt_or_ge j idx with hj' | hj'
          · exact hinv j hj' w hjw
          · have hji : j = idx := by omega
            subst hji
            rw [List.getElem?_eq_getElem hlt] at hjw
            cases hjw
            omega
    · rw [expiryLoop, dif_neg hlt]
      have hall : ∀ w ∈ ws, decide (now < w.wait) = true := by
        intro w hw
        obtain ⟨j, hjlt, hjw⟩ := List.getElem_of_mem hw
        have hj : ws[j]? = some w := by
          rw [List.getElem?_eq_getElem hjlt, hjw]
        simpa using hinv j (by omega) w hj
      rw [List.filter_eq_self.mpr hall]

theorem grantLoop_split {K : Type} [DecidableEq K] (now : Nat) (key : K) :
    ∀ (q : List Waiter) (s : PoolState K),
      ∃ pre suf, q = pre ++ suf
        ∧ (grantLoop now key s q).2.1 = suf
        ∧ (grantLoop now key s q).2.2 = pre.filter (fun w => !w.cancelled) := by
  intro q
  induction q with
  | nil => exact fun s => ⟨[], [], rfl, rfl, rfl⟩
  | cons w rest ih =>
    intro s
    cases hc : w.cancelled with
    | true =>
      obtain ⟨pre, suf, he, h1, h2⟩ := ih s
      refine ⟨w :: pre, suf, by rw [List.cons_append, he], ?_, ?_⟩
      · rw [grantLoop, hc]
        exact h1
      · rw [grantLoop, hc]
        rw [List.filter_cons]
        simp only [hc, Bool.not_true]
        exact h2
    | false =>
      rcases hacq : acquire now key s with ⟨res, s1⟩
      cases res with
      | acquired c =>
        obtain ⟨pre, suf, he, h1, h2⟩ := ih s1
        refine ⟨w :: pre, suf, by rw [List.cons_append, he], ?_, ?_⟩
        · rw [grantLoop, hc, hacq]
          exact h1
        · rw [grantLoop, hc, hacq]
          rw [List.filter_cons]
          simp [hc, h2]
      | available =>
        obtain ⟨pre, suf, he, h1, h2⟩ := ih s1
        refine ⟨w :: pre, suf, by rw [List.cons_append, he], ?_, ?_⟩
        · rw [grantLoop, hc, hacq]
          exact h1
        · rw [grantLoop, hc, hacq]
          rw [List.filter_cons]
          simp [hc, h2]
      | notAvailable =>
        refine ⟨[], w :: rest, rfl, ?_, ?_⟩
        · rw [grantLoop, hc, hacq]
          simp
        · rw [grantLoop, hc, hacq]
          simp

end ClientConnector

/-! ### WebSocket codec lemmas -/

theorem lor128_land128 : ∀ x : Nat, x < 128 → (128 ||| x) &&& 128 = 128 := by decide

theorem land128_small : ∀ x : Nat, x < 128 → x &&& 128 = 0 := by decide

theorem lor128_land127 : ∀ x : Nat, x < 128 → (128 ||| x) &&& 127 = x := by decide

theorem land127_small : ∀ x : Nat, x < 128 → x &&& 127 = x := by decide

theorem lor128_land64 : ∀ x : Nat, x < 64 → (128 ||| x) &&& 64 = 0 := by decide

theorem land64_small : ∀ x : Nat, x < 64 → x &&& 64 = 0 := by decide

theorem lor128_land32 : ∀ x : Nat, x < 32 → (128 ||| x) &&& 32 = 0 := by decide

theorem land32_small : ∀ x : Nat, x < 32 → x &&& 32 = 0 := by decide

theorem lor128_land16 : ∀ x : Nat, x < 16 → (128 ||| x) &&& 16 = 0 := by decide

theorem land16_small : ∀ x : Nat, x < 16 → x &&& 16 = 0 := by decide

theorem lor128_land15 : ∀ x : Nat, x < 16 → (128 ||| x) &&& 15 = x := by decide

theorem land15_small : ∀ x : Nat, x < 16 → x &&& 15 = x := by decide

theorem OpCode.toByte_lt (c : OpCode) : c.toByte < 16 := by
  cases c <;> decide

theorem OpCode.fromByte_toByte (c : OpCode) (h : c ≠ OpCode.bad) :
    OpCode.fromByte c.toByte = c := by
  cases c <;> first | rfl | exact absurd rfl h

theorem beBytes_length (k n : Nat) : (beBytes k n).length = k := by
  induction k generalizing n with
  | zero => rfl
  | succ k ih => simp [beBytes, ih]

theorem beRead_append_one (l : List Nat) (b : Nat) :
    beRead (l ++ [b]) = beRead l * 256 + b := by
  simp [beRead, List.foldl_append]

theorem beRead_beBytes (k n : Nat) (h : n < 256 ^ k) :
    beRead (beBytes k n) = n := by
  induction k generalizing n with
  | zero =>
    simp [beBytes, beRead]
    omega
  | succ k ih =>
    rw [beBytes, beRead_append_one, ih (n / 256) (by
      have h2 : 256 ^ (k + 1) = 256 ^ k * 256 := by ring
      omega)]
    omega

theorem applyMaskFrom_length (mask : List Nat) :
    ∀ (i : Nat) (l : List Nat), (applyMaskFrom mask i l).length = l.length := by
  intro i l
  induction l generalizing i with
  | nil => rfl
  | cons b rest ih => simp [applyMaskFrom, ih]

theorem applyMaskFrom_involution (mask : List Nat) :
    ∀ (i : Nat) (l : List Nat), applyMaskFrom mask i (applyMaskFrom mask i l) = l := by
  intro i l
  induction l generalizing i with
  | nil => rfl
  | cons b rest ih =>
    rw [applyMaskFrom, applyMaskFrom, Nat.xor_assoc, Nat.xor_self, Nat.xor_zero, ih]

theorem applyMask_length (p m : List Nat) : (applyMask p m).length = p.length :=
  applyMaskFrom_length m 0 p

theorem applyMask_involution (p m : List Nat) : applyMask (applyMask p m) m = p :=
  applyMaskFrom_involution m 0 p

theorem take_of_append_eq {α : Type} (l A B : List α) (n : Nat)
    (h : l = A ++ B) (hn : A.length = n) : l.take n = A := by
  rw [h, ← hn, List.take_left]

theorem drop_of_append_eq {α : Type} (l A B : List α) (n : Nat)
    (h : l = A ++ B) (hn : A.length = n) : l.drop n = B := by
  rw [h, ← hn, List.drop_left]

theorem parse_message_roundtrip (payload : List Nat) (code : OpCode)
    (fin g : Bool) (mask : List Nat) (maxSize : Nat)
    (hmask : g = true → mask.length = 4)
    (hmax : payload.length ≤ maxSize)
    (hsize : payload.length < 18446744073709551616)
    (hcode : code = OpCode.text ∨ code = OpCode.binary
      ∨ ((code = OpCode.ping ∨ code = OpCode.pong) ∧ payload.length ≤ 125)) :
    Frame.parse (Frame.message payload code fin g mask) g maxSize
      = Frame.ParseOut.ready
          { finished := fin, rsv1 := false, rsv2 := false, rsv3 := false,
            opcode := code, payload := payload } := by
  have hob : code.toByte < 16 := OpCode.toByte_lt code
  have hob128 : code.toByte < 128 := by omega
  have hcodene : code ≠ OpCode.bad := by
    rcases hcode with h | h | ⟨h | h, _⟩ <;> subst h <;> simp
  have hnotclose : code ≠ OpCode.close := by
    rcases hcode with h | h | ⟨h | h, _⟩ <;> subst h <;> simp
  have hping : (code = OpCode.ping ∨ code = OpCode.pong) → payload.length ≤ 125 := by
    intro hc
    rcases hcode with h | h | ⟨_, hle⟩
    · subst h; rcases hc with hc | hc <;> cases hc
    · subst h; rcases hc with hc | hc <;> cases hc
    · exact hle
  have hfromto : OpCode.fromByte code.toByte = code :=
    OpCode.fromByte_toByte code hcodene
  set one := (if fin then 128 ||| code.toByte else code.toByte) with hone_def
  have hfin : (decide (one &&& 128 ≠ 0)) = fin := by
    cases fin
    · simp [hone_def, land128_small code.toByte hob128]
    · simp [hone_def, lor128_land128 code.toByte hob128]
  have hrsv1 : (decide (one &&& 64 ≠ 0)) = false := by
    cases fin
    · simp [hone_def, land64_small code.toByte (by omega)]
    · simp [hone_def, lor128_land64 code.toByte (by omega)]
  have hrsv2 : (decide (one &&& 32 ≠ 0)) = false := by
    cases fin
    · simp [hone_def, land32_small code.toByte (by omega)]
    · simp [hone_def, lor128_land32 code.toByte (by omega)]
  have hrsv3 : (decide (one &&& 16 ≠ 0)) = false := by
    cases fin
    · simp [hone_def, land16_small code.toByte (by omega)]
    · simp [hone_def, lor128_land16 code.toByte (by omega)]
  have hop : one &&& 15 = code.toByte := by
    cases fin
    · simp [hone_def, land15_small code.toByte hob]
    · simp [hone_def, lor128_land15 code.toByte hob]
  cases g with
  | false =>
    rcases Nat.lt_or_ge payload.length 126 with hsmall | hge126
    · -- 7-bit length, unmasked
      have hmsg : Frame.message payload code fin false mask
          = one :: payload.length :: payload := by
        simp only [Frame.message]
        rw [if_pos hsmall]
        simp
      rw [hmsg]
      have hmasked : (decide (payload.length &&& 128 ≠ 0)) = false := by
        simp [land128_small payload.length (by omega)]
      have hlen : payload.length &&& 127 = payload.length :=
        land127_small payload.length (by omega)
      simp only [Frame.parse]
      rw [if_neg (by simp)]
      simp only [List.getD_cons_zero, List.getD_cons_succ]
      rw [hmasked]
      simp only [Bool.not_false, Bool.and_false, Bool.false_and, Bool.and_self]
      rw [if_neg (by simp)]
      rw [if_neg (by simp)]
      rw [hlen]
      rw [if_neg (by omega), if_neg (by omega)]
      dsimp only
      rw [hop, hfromto]
      rw [if_neg (by omega)]
      rw [if_neg (show ¬(false = true) by simp)]
      dsimp only
      rw [if_neg (show
        ¬((one :: payload.length :: payload).length < 2 + payload.length)
        by simp; omega)]
      rw [if_neg hcodene]
      rw [if_neg (by
        rintro ⟨hc, hgt⟩
        have := hping hc
        omega)]
      rw [if_neg (by
        rintro ⟨hc, _⟩
        exact hnotclose hc)]
      rw [hfin, hrsv1, hrsv2, hrsv3]
      rw [show List.drop 2 (one :: payload.length :: payload) = payload by simp]
      rw [List.take_length]
    rcases Nat.lt_or_ge payload.length 65536 with hmid | hge65536
    · -- 16-bit extended length, unmasked
      have hmsg : Frame.message payload code fin false mask
          = one :: 126 :: (beBytes 2 payload.length ++ payload) := by
        simp only [Frame.message]
        rw [if_neg (show ¬(payload.length < 126) by omega),
          if_pos (show payload.length ≤ 65535 by omega)]
        simp
      rw [hmsg]
      have hlen : (126 : Nat) &&& 127 = 126 := by decide
      simp only [Frame.parse]
      rw [if_neg (by simp)]
      simp only [List.getD_cons_zero, List.getD_cons_succ]
      rw [show (decide ((126 : Nat) &&& 128 ≠ 0)) = false by decide]
      simp only [Bool.not_false, Bool.and_false, Bool.false_and, Bool.and_self]
      rw [if_neg (by simp)]
      rw [if_neg (by simp)]
      rw [hlen]
      rw [if_pos (by trivial)]
      rw [if_neg (show
        ¬((one :: 126 :: (beBytes 2 payload.length ++ payload)).length < 4)
        by simp [beBytes_length])]
      rw [drop_of_append_eq _ [one, 126] (beBytes 2 payload.length ++ payload) 2
        (by simp) (by simp)]
      rw [take_of_append_eq _ (beBytes 2 payload.length) payload 2 rfl
        (beBytes_length 2 payload.length)]
      rw [beRead_beBytes 2 payload.length (by norm_num; omega)]
      dsimp only
      rw [hop, hfromto]
      rw [if_neg (by omega)]
      rw [if_neg (show ¬(false = true) by simp)]
      dsimp only
      rw [if_neg (show
        ¬((one :: 126 :: (beBytes 2 payload.length ++ payload)).length
            < 4 + payload.length)
        by simp [beBytes_length]; omega)]
      rw [if_neg hcodene]
      rw [if_neg (by
        rintro ⟨hc, hgt⟩
        have := hping hc
        omega)]
      rw [if_neg (by
        rintro ⟨hc, _⟩
        exact hnotclose hc)]
      rw [hfin, hrsv1, hrsv2, hrsv3]
      rw [drop_of_append_eq _ ([one, 126] ++ beBytes 2 payload.length) payload 4
        (by simp) (by simp [beBytes_length])]
      rw [List.take_length]
    · -- 64-bit extended length, unmasked
      have hmsg : Frame.message payload code fin false mask
          = one :: 127 :: (beBytes 8 payload.length ++ payload) := by
        simp only [Frame.message]
        rw [if_neg (show ¬(payload.length < 126) by omega),
          if_neg (show ¬(payload.length ≤ 65535) by omega)]
        simp
      rw [hmsg]
      simp only [Frame.parse]
      rw [if_neg (by simp)]
      simp only [List.getD_cons_zero, List.getD_cons_succ]
      rw [show (decide ((127 : Nat) &&& 128 ≠ 0)) = false by decide]
      simp only [Bool.not_false, Bool.and_false, Bool.false_and, Bool.and_self]
      rw [if_neg (by simp)]
      rw [if_neg (by simp)]
      rw [show (127 : Nat) &&& 127 = 127 by decide]
      rw [if_neg (by omega)]
      rw [if_pos (by trivial)]
      rw [if_neg (show
        ¬((one :: 127 :: (beBytes 8 payload.length ++ payload)).length < 10)
        by simp [beBytes_length])]
      rw [drop_of_append_eq _ [one, 127] (beBytes 8 payload.length ++ payload) 2
        (by simp) (by simp)]
      rw [take_of_append_eq _ (beBytes 8 payload.length) payload 8 rfl
        (beBytes_length 8 payload.length)]
      rw [beRead_beBytes 8 payload.length (by norm_num; omega)]
      dsimp only
      rw [hop, hfromto]
      rw [if_neg (by omega)]
      rw [if_neg (show ¬(false = true) by simp)]
      dsimp only
      rw [if_neg (show
        ¬((one :: 127 :: (beBytes 8 payload.length ++ payload)).length
            < 10 + payload.length)
        by simp [beBytes_length]; omega)]
      rw [if_neg hcodene]
      rw [if_neg (by
        rintro ⟨hc, hgt⟩
        have := hping hc
        omega)]
      rw [if_neg (by
        rintro ⟨hc, _⟩
        exact hnotclose hc)]
      rw [hfin, hrsv1, hrsv2, hrsv3]
      rw [drop_of_append_eq _ ([one, 127] ++ beBytes 8 payload.length) payload 10
        (by simp) (by simp [beBytes_length])]
      rw [List.take_length]
  | true =>
    have hmask4 : mask.length = 4 := hmask rfl
    rcases Nat.lt_or_ge payload.length 126 with hsmall | hge126
    · -- 7-bit length, masked
      have hmsg : Frame.message payload code fin true mask
          = one :: (128 ||| payload.length)
              :: (mask ++ applyMask payload mask) := by
        simp only [Frame.message]
        rw [if_pos hsmall]
        simp
      rw [hmsg]
      have hmasked : (decide ((128 ||| payload.length) &&& 128 ≠ 0)) = true := by
        simp [lor128_land128 payload.length (by omega)]
      have hlen : (128 ||| payload.length) &&& 127 = payload.length :=
        lor128_land127 payload.length (by omega)
      simp only [Frame.parse]
      rw [if_neg (by simp)]
      simp only [List.getD_cons_zero, List.getD_cons_succ]
      rw [hmasked]
      simp only [Bool.not_true, Bool.and_false, Bool.false_and, Bool.true_and,
        Bool.and_true]
      rw [if_neg (by simp)]
      rw [if_neg (by simp)]
      rw [hlen]
      rw [if_neg (by omega), if_neg (by omega)]
      dsimp only
      rw [hop, hfromto]
      rw [if_neg (by omega)]
      rw [if_pos (by trivial)]
      rw [if_neg (show
        ¬((one :: (128 ||| payload.length)
            :: (mask ++ applyMask payload mask)).length < 2 + 4)
        by simp [hmask4, applyMask_length])]
      rw [drop_of_append_eq _ [one, 128 ||| payload.length]
        (mask ++ applyMask payload mask) 2 (by simp) (by simp)]
      rw [take_of_append_eq _ mask (applyMask payload mask) 4 rfl hmask4]
      dsimp only
      rw [if_neg (show
        ¬((one :: (128 ||| payload.length)
            :: (mask ++ applyMask payload mask)).length < 2 + 4 + payload.length)
        by simp [hmask4, applyMask_length]; omega)]
      rw [if_neg hcodene]
      rw [if_neg (by
        rintro ⟨hc, hgt⟩
        have := hping hc
        omega)]
      rw [if_neg (by
        rintro ⟨hc, _⟩
        exact hnotclose hc)]
      rw [hfin, hrsv1, hrsv2, hrsv3]
      rw [drop_of_append_eq _ ([one, 128 ||| payload.length] ++ mask)
        (applyMask payload mask) (2 + 4) (by simp) (by simp [hmask4])]
      rw [show List.take payload.length (applyMask payload mask)
          = applyMask payload mask by
        rw [← applyMask_length payload mask, List.take_length]]
      rw [applyMask_involution]
    rcases Nat.lt_or_ge payload.length 65536 with hmid | hge65536
    · -- 16-bit extended length, masked
      have hmsg : Frame.message payload code fin true mask
          = one :: (128 ||| 126)
              :: (beBytes 2 payload.length ++ (mask ++ applyMask payload mask)) := by
        simp only [Frame.message]
        rw [if_neg (show ¬(payload.length < 126) by omega),
          if_pos (show payload.length ≤ 65535 by omega)]
        simp
      rw [hmsg]
      simp only [Frame.parse]
      rw [if_neg (by simp)]
      simp only [List.getD_cons_zero, List.getD_cons_succ]
      rw [show (decide (((128 : Nat) ||| 126) &&& 128 ≠ 0)) = true by decide]
      simp only [Bool.not_true, Bool.and_false, Bool.false_and, Bool.true_and,
        Bool.and_true]
      rw [if_neg (by simp)]
      rw [if_neg (by simp)]
      rw [show ((128 : Nat) ||| 126) &&& 127 = 126 by decide]
      rw [if_pos (by trivial)]
      rw [if_neg (show
        ¬((one :: (128 ||| 126)
            :: (beBytes 2 payload.length ++ (mask ++ applyMask payload mask))).length
          < 4)
        by simp [beBytes_length])]
      rw [drop_of_append_eq _ [one, 128 ||| 126]
        (beBytes 2 payload.length ++ (mask ++ applyMask payload mask)) 2
        (by simp) (by simp)]
      rw [take_of_append_eq _ (beBytes 2 payload.length)
        (mask ++ applyMask payload mask) 2 rfl (beBytes_length 2 payload.length)]
      rw [beRead_beBytes 2 payload.length (by norm_num; omega)]
      dsimp only
      rw [hop, hfromto]
      rw [if_neg (by omega)]
      rw [if_pos (by trivial)]
      rw [if_neg (show
        ¬((one :: (128 ||| 126)
            :: (beBytes 2 payload.length ++ (mask ++ applyMask payload mask))).length
          < 4 + 4)
        by simp [beBytes_length, hmask4, applyMask_length]; omega)]
      rw [drop_of_append_eq _ ([one, 128 ||| 126] ++ beBytes 2 payload.length)
        (mask ++ applyMask payload mask) 4 (by simp) (by simp [beBytes_length])]
      rw [take_of_append_eq _ mask (applyMask payload mask) 4 rfl hmask4]
      dsimp only
      rw [if_neg (show
        ¬((one :: (128 ||| 126)
            :: (beBytes 2 payload.length ++ (mask ++ applyMask payload mask))).length
          < 4 + 4 + payload.length)
        by simp [beBytes_length, hmask4, applyMask_length]; omega)]
      rw [if_neg hcodene]
      rw [if_neg (by
        rintro ⟨hc, hgt⟩
        have := hping hc
        omega)]
      rw [if_neg (by
        rintro ⟨hc, _⟩
        exact hnotclose hc)]
      rw [hfin, hrsv1, hrsv2, hrsv3]
      rw [drop_of_append_eq _
        (([one, 128 ||| 126] ++ beBytes 2 payload.length) ++ mask)
        (applyMask payload mask) (4 + 4) (by simp) (by simp [beBytes_length, hmask4])]
      rw [show List.take payload.length (applyMask payload mask)
          = applyMask payload mask by
        rw [← applyMask_length payload mask, List.take_length]]
      rw [applyMask_involution]
    · -- 64-bit extended length, masked
      have hmsg : Frame.message payload code fin true mask
          = one :: (128 ||| 127)
              :: (beBytes 8 payload.length ++ (mask ++ applyMask payload mask)) := by
        simp only [Frame.message]
        rw [if_neg (show ¬(payload.length < 126) by omega),
          if_neg (show ¬(payload.length ≤ 65535) by omega)]
        simp
      rw [hmsg]
      simp only [Frame.parse]
      rw [if_neg (by simp)]
      simp only [List.getD_cons_zero, List.getD_cons_succ]
      rw [show (decide (((128 : Nat) ||| 127) &&& 128 ≠ 0)) = true by decide]
      simp only [Bool.not_true, Bool.and_false, Bool.false_and, Bool.true_and,
        Bool.and_true]
      rw [if_neg (by simp)]
      rw [if_neg (by simp)]
      rw [show ((128 : Nat) ||| 127) &&& 127 = 127 by decide]
      rw [if_neg (by omega)]
      rw [if_pos (by trivial)]
      rw [if_neg (show
        ¬((one :: (128 ||| 127)
            :: (beBytes 8 payload.length ++ (mask ++ applyMask payload mask))).length
          < 10)
        by simp [beBytes_length])]
      rw [drop_of_append_eq _ [one, 128 ||| 127]
        (beBytes 8 payload.length ++ (mask ++ applyMask payload mask)) 2
        (by simp) (by simp)]
      rw [take_of_append_eq _ (beBytes 8 payload.length)
        (mask ++ applyMask payload mask) 8 rfl (beBytes_length 8 payload.length)]
      rw [beRead_beBytes 8 payload.length (by norm_num; omega)]
      dsimp only
      rw [hop, hfromto]
      rw [if_neg (by omega)]
      rw [if_pos (by trivial)]
      rw [if_neg (show
        ¬((one :: (128 ||| 127)
            :: (beBytes 8 payload.length ++ (mask ++ applyMask payload mask))).length
          < 10 + 4)
        by simp [beBytes_length, hmask4, applyMask_length]; omega)]
      rw [drop_of_append_eq _ ([one, 128 ||| 127] ++ beBytes 8 payload.length)
        (mask ++ applyMask payload mask) 10 (by simp) (by simp [beBytes_length])]
      rw [take_of_append_eq _ mask (applyMask payload mask) 4 rfl hmask4]
      dsimp only
      rw [if_neg (show
        ¬((one :: (128 ||| 127)
            :: (beBytes 8 payload.length ++ (mask ++ applyMask payload mask))).length
          < 10 + 4 + payload.length)
        by simp [beBytes_length, hmask4, applyMask_length]; omega)]
      rw [if_neg hcodene]
      rw [if_neg (by
        rintro ⟨hc, hgt⟩
        have := hping hc
        omega)]
      rw [if_neg (by
        rintro ⟨hc, _⟩
        exact hnotclose hc)]
      rw [hfin, hrsv1, hrsv2, hrsv3]
      rw [drop_of_append_eq _
        (([one, 128 ||| 127] ++ beBytes 8 payload.length) ++ mask)
        (applyMask payload mask) (10 + 4) (by simp)
        (by simp [beBytes_length, hmask4])]
      rw [show List.take payload.length (applyMask payload mask)
          = applyMask payload mask by
        rw [← applyMask_length payload mask, List.take_length]]
      rw [applyMask_involution]

/-! ### Claim theorems -/

/-- C1: evidence for the code bug in the admission check of
`ClientConnector::acquire`. The claim (and spec §4.5) requires
`NotAvailable` exactly when a positive limit is reached, i.e. per-host when
`acquired_per_host[key] ≥ limit_per_host`. The code compares
`self.limit_per_host >= *per_host` (connector.rs lines 318 and 326), so
with `limit = 0`, `limit_per_host = 5` and one slot held for the key
(1 < 5: the claim reserves a slot), `acquire` returns `NotAvailable`, while
with six slots held (6 ≥ 5: the claim returns `NotAvailable`), `acquire`
admits and returns `Available`. This contradicts the documented meaning of
`limit_per_host` ("Set total number of simultaneous connections to the same
endpoint ... If limit is 0, the connector has no limit"). -/
theorem acquire_per_host_comparison_reversed :
    (ClientConnector.acquire (K := Nat) 0 7
      { limit := 0, limitPerHost := 5, acquired := 1, acquiredPerHost := [(7, 1)],
        available := [], toClose := [], connKeepAlive := 75, connLifetime := 15 }).1
      = Acquire.notAvailable
    ∧ (1 : Nat) < 5
    ∧ (ClientConnector.acquire (K := Nat) 0 7
      { limit := 0, limitPerHost := 5, acquired := 6, acquiredPerHost := [(7, 6)],
        available := [], toClose := [], connKeepAlive := 75, connLifetime := 15 }).1
      = Acquire.available
    ∧ (6 : Nat) ≥ 5 := by
  decide

/-- C5: counterexample. The claim says `reserve`, `release_key` and
`collect` each preserve `acquired = Σ acquired_per_host[k]` on every
reachable state, but `release_key` on a key that holds no slot decrements
`acquired` and returns early without touching the per-host sum: from the
state reached by `reserve 0` (which satisfies the equation), `release_key 1`
produces `acquired = 0` while the per-host sum stays `1`. -/
theorem release_key_unheld_counterexample :
    ClientConnector.inv (K := Nat)
      { limit := 0, limitPerHost := 0, acquired := 1, acquiredPerHost := [(0, 1)],
        available := [], toClose := [], connKeepAlive := 75, connLifetime := 15 }
    ∧ ¬ ClientConnector.inv (ClientConnector.releaseKey 1
      { limit := 0, limitPerHost := 0, acquired := 1, acquiredPerHost := [(0, 1)],
        available := [], toClose := [], connKeepAlive := 75, connLifetime := 15 }) := by
  decide

/-- C5 (amended): the accounting equation `acquired = Σ acquired_per_host`
is preserved by `reserve` always, by `release_key` when the released key
currently holds a slot (a positive per-host count), and by `collect` when
the drained pool buffers release no key more often than its held count (as
holds when every release matches a prior reserve; the per-host map is
assumed duplicate-free, as `HashMap` guarantees). A `release_key` on an
unheld key breaks the equation. -/
theorem pool_accounting_invariant {K : Type} [DecidableEq K] (s : PoolState K)
    (hinv : ClientConnector.inv s) :
    (∀ k, ClientConnector.inv (ClientConnector.reserve k s))
    ∧ (∀ k ph, alGet s.acquiredPerHost k = some ph → 1 ≤ ph →
        ClientConnector.inv (ClientConnector.releaseKey k s))
    ∧ (∀ (now : Nat) (periodic modified : Bool) (poolKeys : List K)
        (poolClose poolRelease : List (ConnInfo K)),
        (s.acquiredPerHost.map Prod.fst).Nodup →
        ClientConnector.Releasable s.acquiredPerHost
          (ClientConnector.releasedKeys poolKeys poolClose poolRelease) →
        ClientConnector.inv
          (ClientConnector.collect now periodic modified poolKeys poolClose
            poolRelease s)) := by
  refine ⟨fun k => ClientConnector.inv_reserve s k hinv, ?_, ?_⟩
  · intro k ph hget hph
    exact ClientConnector.inv_releaseKey_held s k ph hget hph hinv
  · intro now periodic modified poolKeys poolClose poolRelease hnd hrel
    exact ClientConnector.inv_collect now periodic modified poolKeys poolClose
      poolRelease s hnd hrel hinv

/-- C5 (amended) witness: the amended statement evaluated at a concrete
state holding two slots for key `0`. -/
theorem pool_accounting_invariant_witness :
    ClientConnector.inv (ClientConnector.reserve 3
      { limit := 0, limitPerHost := 0, acquired := 2, acquiredPerHost := [(0, 2)],
        available := [], toClose := [], connKeepAlive := 75, connLifetime := 15 })
    ∧ ClientConnector.inv (ClientConnector.releaseKey 0
      { limit := 0, limitPerHost := 0, acquired := 2, acquiredPerHost := [(0, 2)],
        available := [], toClose := [], connKeepAlive := 75, connLifetime := 15 })
    ∧ ClientConnector.inv (ClientConnector.collect 9 true true [0] [] []
      { limit := 0, limitPerHost := 0, acquired := 2, acquiredPerHost := [(0, 2)],
        available := [], toClose := [], connKeepAlive := 75, connLifetime := 15 }) :=
  ⟨(pool_accounting_invariant _ (by decide)).1 3,
   (pool_accounting_invariant _ (by decide)).2.1 0 2 (by decide) (by decide),
   (pool_accounting_invariant _ (by decide)).2.2 9 true true [0] [] []
     (by decide) (by decide)⟩

/-- C3: an application accepts a request path `p` exactly when `p` starts
with the application prefix and either `p` has exactly the prefix's length
or the byte of `p` at index `prefix.len()` is `/` (47); when the condition
fails, `HttpApplication::handle` returns the request to the caller
unhandled (`Err(req)`). -/
theorem application_prefix_match (prefixStr path : List Nat) :
    (HttpApplication.handle prefixStr path = Except.ok ()
      ↔ (prefixStr <+: path
          ∧ (path.length = prefixStr.length ∨ path[prefixStr.length]? = some 47)))
    ∧ (HttpApplication.handle prefixStr path = Except.error path
      ↔ ¬ (prefixStr <+: path
          ∧ (path.length = prefixStr.length ∨ path[prefixStr.length]? = some 47))) := by
  have hiff : HttpApplication.accepts prefixStr path = true
      ↔ (prefixStr <+: path
          ∧ (path.length = prefixStr.length ∨ path[prefixStr.length]? = some 47)) := by
    unfold HttpApplication.accepts
    rw [Bool.and_eq_true, Bool.or_eq_true]
    constructor
    · rintro ⟨h1, h2⟩
      refine ⟨List.isPrefixOf_iff_prefix.mp h1, ?_⟩
      rcases h2 with h2 | h2
      · exact Or.inl (by simpa using h2)
      · right
        have h2' : (path.drop prefixStr.length).take 1 = [47] := by
          simpa using h2
        have h0 : (path.drop prefixStr.length)[0]? = some 47 := by
          cases hd : path.drop prefixStr.length with
          | nil => rw [hd] at h2'; cases h2'
          | cons b rest =>
            rw [hd] at h2'
            simp only [List.take_succ_cons, List.take_zero] at h2'
            cases h2'
            simp
        rw [List.getElem?_drop] at h0
        simpa using h0
    · rintro ⟨h1, h2⟩
      refine ⟨List.isPrefixOf_iff_prefix.mpr h1, ?_⟩
      rcases h2 with h2 | h2
      · exact Or.inl (by simpa using h2)
      · right
        have h0 : (path.drop prefixStr.length)[0]? = some 47 := by
          rw [List.getElem?_drop]
          simpa using h2
        cases hd : path.drop prefixStr.length with
        | nil => rw [hd] at h0; cases h0
        | cons b rest =>
          rw [hd] at h0
          simp only [List.getElem?_cons_zero, Option.some.injEq] at h0
          subst h0
          simp
  constructor
  · unfold HttpApplication.handle
    constructor
    · intro h
      by_cases hacc : HttpApplication.accepts prefixStr path
      · exact hiff.mp hacc
      · rw [if_neg hacc] at h; cases h
    · intro h
      rw [if_pos (hiff.mpr h)]
  · unfold HttpApplication.handle
    constructor
    · intro h
      by_cases hacc : HttpApplication.accepts prefixStr path
      · rw [if_pos hacc] at h; cases h
      · exact fun hc => hacc (hiff.mpr hc)
    · intro h
      rw [if_neg (fun hacc => h (hiff.mp hacc))]

/-- C2 (amended): whenever `Router::recognize` returns (it panics when the
percent-decoded path is not valid UTF-8), it returns `Some(i)` only when
pattern `i` matches the percent-decoded, prefix-stripped path and no
pattern with a smaller index matches it, and `None` only when either no
pattern matches that path or the prefix is longer than the raw path (in
which case no matching is attempted). -/
theorem recognize_lowest_index (r : RouterM) (path : List Nat) (res : Option Nat)
    (h : Router.recognize r path = Except.ok res) :
    (∀ i : Nat, res = some i →
      r.prefixLen ≤ path.length
      ∧ ∃ pat, r.patterns[i]? = some pat
          ∧ pat.matches (Router.decodedPath r path) = true
          ∧ ∀ (j : Nat) (pat' : RPattern), j < i → r.patterns[j]? = some pat' →
              pat'.matches (Router.decodedPath r path) = false)
    ∧ (res = none →
        r.prefixLen > path.length
        ∨ ∀ (j : Nat) (pat : RPattern), r.patterns[j]? = some pat →
            pat.matches (Router.decodedPath r path) = false) := by
  unfold Router.recognize at h
  by_cases hp : r.prefixLen > path.length
  · rw [if_pos hp] at h
    have hres : res = none := by
      injection h with h2
      exact h2.symm
    subst hres
    refine ⟨fun i hi => ?_, fun _ => Or.inl hp⟩
    cases hi
  · rw [if_neg hp] at h
    have h' : (if isValidUtf8 (Router.decodedPath r path) then
        Except.ok (Router.firstMatch r.patterns (Router.decodedPath r path))
        else (Except.error () : Except Unit (Option Nat))) = Except.ok res := h
    cases hv : isValidUtf8 (Router.decodedPath r path) with
    | false =>
      rw [hv] at h'
      simp at h'
    | true =>
      rw [hv] at h'
      simp only [if_pos, Except.ok.injEq] at h'
      subst h'
      constructor
      · intro i hi
        refine ⟨by omega, ?_⟩
        exact Router.firstMatch_some hi
      · intro hn
        exact Or.inr (Router.firstMatch_none hn)

/-- C2 (amended) witness: a one-pattern router recognizing `/n` at index 0,
with the lowest-index property instantiated. -/
theorem recognize_lowest_index_witness :
    Router.recognize { prefixLen := 0, patterns := [RPattern.static [47, 110]] }
        [47, 110] = Except.ok (some 0)
    ∧ ((∀ i : Nat, (some 0 : Option Nat) = some i →
        (0 : Nat) ≤ ([47, 110] : List Nat).length
        ∧ ∃ pat, [RPattern.static [47, 110]][i]? = some pat
            ∧ pat.matches (Router.decodedPath
                { prefixLen := 0, patterns := [RPattern.static [47, 110]] }
                [47, 110]) = true
            ∧ ∀ (j : Nat) (pat' : RPattern), j < i →
                [RPattern.static [47, 110]][j]? = some pat' →
                pat'.matches (Router.decodedPath
                  { prefixLen := 0, patterns := [RPattern.static [47, 110]] }
                  [47, 110]) = false)
      ∧ ((some 0 : Option Nat) = none →
          (0 : Nat) > ([47, 110] : List Nat).length
          ∨ ∀ (j : Nat) (pat : RPattern),
              [RPattern.static [47, 110]][j]? = some pat →
              pat.matches (Router.decodedPath
                { prefixLen := 0, patterns := [RPattern.static [47, 110]] }
                [47, 110]) = false)) :=
  ⟨rfl, recognize_lowest_index
    { prefixLen := 0, patterns := [RPattern.static [47, 110]] } [47, 110]
    (some 0) rfl⟩

/-- C2: counterexample. For the path `/%FF` (bytes `[47, 37, 70, 70]`) and
the one-pattern table `["/"]`, `Router::recognize` panics on
`decode_utf8().unwrap()` (the `Except.error` outcome) and hence returns
neither `Some(i)` nor `None`, contradicting the claimed dichotomy for every
request path. -/
theorem recognize_dichotomy_fails_on_invalid_utf8 :
    Router.recognize { prefixLen := 0, patterns := [RPattern.static [47]] }
        [47, 37, 70, 70] = Except.error ()
    ∧ ∀ res : Option Nat,
        Router.recognize { prefixLen := 0, patterns := [RPattern.static [47]] }
          [47, 37, 70, 70] ≠ Except.ok res := by
  refine ⟨rfl, fun res h => ?_⟩
  rw [show Router.recognize { prefixLen := 0, patterns := [RPattern.static [47]] }
      [47, 37, 70, 70] = Except.error () from rfl] at h
  cases h

/-- C7: counterexample. The waiter-expiry pass does not preserve the
relative order of surviving waiters: with `now = 5` and the queue
`[w1 (deadline 0), w2 (deadline 10), w3 (deadline 20)]`, expiring `w1` via
`swap_remove_back` moves `w3` to the front, leaving `[w3, w2]`, while the
surviving waiters in queue order are `[w2, w3]`. -/
theorem collect_waiters_reorders :
    (ClientConnector.expiryLoop 5
      [{ txId := 1, wait := 0, connTimeout := 1, cancelled := false },
       { txId := 2, wait := 10, connTimeout := 1, cancelled := false },
       { txId := 3, wait := 20, connTimeout := 1, cancelled := false }] 0 []).1
      = [{ txId := 3, wait := 20, connTimeout := 1, cancelled := false },
         { txId := 2, wait := 10, connTimeout := 1, cancelled := false }]
    ∧ ([{ txId := 1, wait := 0, connTimeout := 1, cancelled := false },
        { txId := 2, wait := 10, connTimeout := 1, cancelled := false },
        { txId := 3, wait := 20, connTimeout := 1, cancelled := false }]
          : List Waiter).filter (fun w => decide (5 < w.wait))
      = [{ txId := 2, wait := 10, connTimeout := 1, cancelled := false },
         { txId := 3, wait := 20, connTimeout := 1, cancelled := false }]
    ∧ ([{ txId := 3, wait := 20, connTimeout := 1, cancelled := false },
        { txId := 2, wait := 10, connTimeout := 1, cancelled := false }] : List Waiter)
      ≠ [{ txId := 2, wait := 10, connTimeout := 1, cancelled := false },
         { txId := 3, wait := 20, connTimeout := 1, cancelled := false }] := by
  refine ⟨?_, by decide, by decide⟩
  rw [ClientConnector.expiryLoop]
  norm_num [ClientConnector.swapRemoveBack]
  rw [ClientConnector.expiryLoop]
  norm_num
  rw [ClientConnector.expiryLoop]
  norm_num
  rw [ClientConnector.expiryLoop]
  norm_num

/-- C7 (amended): the maintenance grant pass serves waiters strictly in
queue (front-first) order — for every queue it grants exactly the
non-cancelled waiters of an initial segment, in order, stopping at the
first `NotAvailable` and leaving the remaining waiters as the untouched
suffix — and the waiter-expiry pass keeps exactly the live (non-expired)
waiters, as a permutation of them: `swap_remove_back` may reorder the
survivors, so their relative order is not preserved in general. -/
theorem waiter_order_amended {K : Type} [DecidableEq K] :
    (∀ (now : Nat) (key : K) (s : PoolState K) (q : List Waiter),
      ∃ pre suf, q = pre ++ suf
        ∧ (ClientConnector.grantLoop now key s q).2.1 = suf
        ∧ (ClientConnector.grantLoop now key s q).2.2
            = pre.filter (fun w => !w.cancelled))
    ∧ (∀ (now : Nat) (ws : List Waiter),
        ((ClientConnector.expiryLoop now ws 0 []).1).Perm
          (ws.filter (fun w => decide (now < w.wait)))) :=
  ⟨fun now key s q => ClientConnector.grantLoop_split now key q s,
   fun now ws => ClientConnector.expiryLoop_perm now ws.length ws 0 []
     (by omega) (fun j hj w _ => absurd hj (by omega))⟩

/-- C10: `Router::recognize` is not total: for the path `/%FF` (bytes
`[47, 37, 70, 70]`), whose percent-decoded bytes `[47, 255]` are not valid
UTF-8, `recognize` hits the `decode_utf8().unwrap()` panic (the
`Except.error` outcome) instead of returning `None`, for every pattern
table. -/
theorem recognize_panics_on_invalid_utf8 (pats : List RPattern) :
    Router.recognize { prefixLen := 0, patterns := pats } [47, 37, 70, 70]
      = Except.error () := by
  rfl

/-- C8: counterexample. Compiling the template `/{name}` (with any escape
function for literal characters; none is escaped here) does not produce the
regex `^/(?P<name>[^{}/]+)$` claimed by the spec: `DEFAULT_PATTERN` in
`Resource::parse` is `"[^/]+"`, not `"[^{}/]+"`. -/
theorem default_pattern_counterexample :
    (Resource.parse (fun c => [c]) ['/', '{', 'n', 'a', 'm', 'e', '}'] ['/']).1
      ≠ ['^', '/', '(', '?', 'P', '<', 'n', 'a', 'm', 'e', '>',
         '[', '^', '{', '}', '/', ']', '+', ')', '$'] := by
  decide

/-- C8 (amended): a `{name}` segment with no custom pattern matches the
default character class `[^/]+`; compiling the template `/{name}` with
prefix `/` produces the anchored regex string `^/(?P<name>[^/]+)$` (for any
escape function, since no literal character survives the elided leading
slash), with elements `[Str "", Var "name"]` and the dynamic flag set. -/
theorem default_pattern_amended (esc : Char → List Char) :
    Resource.parse esc ['/', '{', 'n', 'a', 'm', 'e', '}'] ['/']
      = (['^', '/', '(', '?', 'P', '<', 'n', 'a', 'm', 'e', '>',
          '[', '^', '/', ']', '+', ')', '$'],
         [PatternElement.str [], PatternElement.var ['n', 'a', 'm', 'e']],
         true) := by
  rfl

/-- C9: for a `ws` or `wss` URI (with a host, and TLS support present when
the scheme is `wss`), `Handler<Connect>::handle` never consults `acquire`:
it dials with an `AcquiredConn` carrying no `Rc<Pool>` back-reference and
leaves the connector state (limits, per-host counts, waiters) unchanged,
whatever the limits are; and `Connection::release` on any connection whose
`AcquiredConn` carries no `Rc<Pool>` — exactly the shape the ws/wss dial
produces — never pushes into the pool's release buffer. -/
theorem ws_bypasses_pool (now : Nat) (uri : UriM) (waitTime connTimeout txId : Nat)
    (s : CState) (host : String) (hhost : uri.host = some host)
    (hsch : uri.scheme = some "ws" ∨ uri.scheme = some "wss")
    (hssl : uri.scheme = some "wss" → (s.hasOpenssl = true ∨ s.hasTls = true)) :
    (∃ key : Key, ClientConnector.handleConnect now uri waitTime connTimeout txId s
        = (ConnectOutcome.dial { key, hasPoolRc := false }, s))
    ∧ ∀ (a : AcquiredConn) (c : ConnInfo Key) (b : PoolBufs),
        a.hasPoolRc = false → Connection.releaseToPool (some a) c b = b := by
  constructor
  · rcases hsch with h | h
    · refine ⟨{ host, port := uri.port.getD 80, ssl := false }, ?_⟩
      unfold ClientConnector.handleConnect
      rw [hhost, h]
      simp [Protocol.fromScheme, Protocol.isSecure, Protocol.isHttp, Protocol.port]
    · refine ⟨{ host, port := uri.port.getD 443, ssl := true }, ?_⟩
      unfold ClientConnector.handleConnect
      rw [hhost, h]
      rcases hssl h with ho | ht
      · simp [Protocol.fromScheme, Protocol.isSecure, Protocol.isHttp,
          Protocol.port, ho]
      · simp [Protocol.fromScheme, Protocol.isSecure, Protocol.isHttp,
          Protocol.port, ht]
  · intro a c b hno
    unfold Connection.releaseToPool AcquiredConn.releaseConn
    simp [hno]

/-- C9 witness: a `ws` connect against a connector whose total limit is
fully exhausted still dials immediately, with no pool back-reference and no
state change. -/
theorem ws_bypasses_pool_witness :
    ({ scheme := some "ws", host := some "h", port := none } : UriM).host
        = some "h"
    ∧ (({ scheme := some "ws", host := some "h", port := none } : UriM).scheme
          = some "ws"
        ∨ ({ scheme := some "ws", host := some "h", port := none } : UriM).scheme
          = some "wss")
    ∧ (({ scheme := some "ws", host := some "h", port := none } : UriM).scheme
          = some "wss" →
        (({ pool := { limit := 1, limitPerHost := 0, acquired := 9,
                      acquiredPerHost := [], available := [], toClose := [],
                      connKeepAlive := 75, connLifetime := 15 },
            waiters := [], hasOpenssl := false,
            hasTls := false } : CState).hasOpenssl = true
          ∨ ({ pool := { limit := 1, limitPerHost := 0, acquired := 9,
                         acquiredPerHost := [], available := [], toClose := [],
                         connKeepAlive := 75, connLifetime := 15 },
               waiters := [], hasOpenssl := false,
               hasTls := false } : CState).hasTls = true))
    ∧ ((∃ key : Key, ClientConnector.handleConnect 0
            { scheme := some "ws", host := some "h", port := none } 5 1 0
            { pool := { limit := 1, limitPerHost := 0, acquired := 9,
                        acquiredPerHost := [], available := [], toClose := [],
                        connKeepAlive := 75, connLifetime := 15 },
              waiters := [], hasOpenssl := false, hasTls := false }
          = (ConnectOutcome.dial { key, hasPoolRc := false },
              { pool := { limit := 1, limitPerHost := 0, acquired := 9,
                          acquiredPerHost := [], available := [], toClose := [],
                          connKeepAlive := 75, connLifetime := 15 },
                waiters := [], hasOpenssl := false, hasTls := false }))
        ∧ ∀ (a : AcquiredConn) (c : ConnInfo Key) (b : PoolBufs),
            a.hasPoolRc = false → Connection.releaseToPool (some a) c b = b) :=
  ⟨rfl, Or.inl rfl, by decide,
   ws_bypasses_pool 0 { scheme := some "ws", host := some "h", port := none } 5 1 0
     { pool := { limit := 1, limitPerHost := 0, acquired := 9,
                 acquiredPerHost := [], available := [], toClose := [],
                 connKeepAlive := 75, connLifetime := 15 },
       waiters := [], hasOpenssl := false, hasTls := false } "h" rfl (Or.inl rfl)
     (by decide)⟩

/-- C6: counterexample. One `collect` pass does not evict every idle
connection whose age exceeds the lifetime: the eviction loop `break`s at
the first non-stale front entry, so with `keep_alive = 75`,
`lifetime = 15` and `now = 16`, a bucket whose front entry is fresh
(released at 13, created at 2) retains the entry behind it even though
that entry's age `16 - 0 = 16` exceeds the lifetime. -/
theorem idle_discipline_counterexample :
    alGet (ClientConnector.collect (K := Nat) 16 false false [] [] []
      { limit := 0, limitPerHost := 0, acquired := 0, acquiredPerHost := [],
        available := [(0,
          [{ released := 13,
             conn := { key := 0, ts := 2, probe := ProbeResult.wouldBlock,
                       shutdownNotReady := false } },
           { released := 14,
             conn := { key := 0, ts := 0, probe := ProbeResult.wouldBlock,
                       shutdownNotReady := false } }])],
        toClose := [], connKeepAlive := 75, connLifetime := 15 }).available 0
      = some
          [{ released := 13,
             conn := { key := 0, ts := 2, probe := ProbeResult.wouldBlock,
                       shutdownNotReady := false } },
           { released := 14,
             conn := { key := 0, ts := 0, probe := ProbeResult.wouldBlock,
                       shutdownNotReady := false } }]
    ∧ 16 - (0 : Nat) > 15
    ∧ (ClientConnector.collect (K := Nat) 16 false false [] [] []
      { limit := 0, limitPerHost := 0, acquired := 0, acquiredPerHost := [],
        available := [(0,
          [{ released := 13,
             conn := { key := 0, ts := 2, probe := ProbeResult.wouldBlock,
                       shutdownNotReady := false } },
           { released := 14,
             conn := { key := 0, ts := 0, probe := ProbeResult.wouldBlock,
                       shutdownNotReady := false } }])],
        toClose := [], connKeepAlive := 75, connLifetime := 15 }).toClose = [] := by
  decide

/-- C6 (amended): one `collect` pass (a maintenance tick: `periodic = false`,
no pending pool events) evicts from each idle bucket exactly its maximal
stale prefix — entries whose time since release exceeds `keep_alive` (with
`now` past the release time) or whose age exceeds `lifetime` — moving each
evicted connection to the close list; the surviving bucket is the remaining
suffix, whose front entry (if any) is not stale, but a stale entry behind a
fresh one survives the tick. -/
theorem idle_discipline_amended {K : Type} [DecidableEq K] (now : Nat)
    (s : PoolState K) (k : K) (bucket : List (IdleConn K))
    (hget : alGet s.available k = some bucket) :
    alGet (ClientConnector.collect now false false [] [] [] s).available k
      = some (bucket.dropWhile
          (ClientConnector.staleAt now s.connKeepAlive s.connLifetime))
    ∧ ∀ e ∈ bucket.takeWhile
        (ClientConnector.staleAt now s.connKeepAlive s.connLifetime),
        e.conn ∈ (ClientConnector.collect now false false [] [] [] s).toClose := by
  unfold ClientConnector.collect
  simp only [Bool.false_eq_true, if_false]
  constructor
  · rw [List.map_map]
    have hmap : ((fun p : K × (List (ConnInfo K) × List (IdleConn K)) => (p.1, p.2.2))
        ∘ (fun p : K × List (IdleConn K) =>
            (p.1, ClientConnector.evictBucket now s.connKeepAlive s.connLifetime p.2)))
        = fun p : K × List (IdleConn K) =>
            (p.1, (ClientConnector.evictBucket now s.connKeepAlive s.connLifetime p.2).2) := by
      funext p
      rfl
    rw [hmap,
      alGet_map_val
        (fun b => (ClientConnector.evictBucket now s.connKeepAlive s.connLifetime b).2)
        s.available k,
      hget]
    simp [ClientConnector.evictBucket_eq]
  · intro e he
    simp only [List.mem_append]
    right
    rw [List.mem_flatten]
    refine ⟨(ClientConnector.evictBucket now s.connKeepAlive s.connLifetime bucket).1,
      ?_, ?_⟩
    · rw [List.map_map]
      refine List.mem_map.mpr ⟨(k, bucket), alGet_some_mem hget, rfl⟩
    · rw [ClientConnector.evictBucket_eq]
      exact List.mem_map.mpr ⟨e, he, rfl⟩

/-- C4: counterexample. The round trip does not hold over the full product
of opcodes and lengths claimed: a Ping frame with a 126-byte payload is
emitted by `Frame::message` but rejected by `Frame::parse` with
`InvalidLength(126)` (control frames must have length ≤ 125), so
`parse(emit(m)) ≠ m` at that input (consistent unmasked role,
`max_size = 1024 ≥ 126`). -/
theorem ws_roundtrip_fails_for_long_ping :
    Frame.parse (Frame.message (List.replicate 126 0) OpCode.ping true false [])
        false 1024
      = Frame.ParseOut.err (ProtocolError.invalidLength 126)
    ∧ Frame.ParseOut.err (ProtocolError.invalidLength 126)
      ≠ Frame.ParseOut.ready
          { finished := true, rsv1 := false, rsv2 := false, rsv3 := false,
            opcode := OpCode.ping, payload := List.replicate 126 0 } := by
  exact ⟨by decide, by decide⟩

/-- C4 (amended): for every frame with opcode in {Text, Binary, Ping, Pong}
and payload of length ℓ in {0, 1, 125, 126, 65535, 65536} — except Ping and
Pong frames with ℓ > 125, which `parse` rejects with `InvalidLength` per
the RFC 6455 control-frame rule — parsing the emitted wire bytes returns
the original frame, for either consistent masking role (unmasked/client
parse, or masked with any 4-byte key/server parse) and any
`max_size ≥ ℓ`. -/
theorem ws_frame_roundtrip (payload : List Nat) (code : OpCode) (fin g : Bool)
    (mask : List Nat) (maxSize : Nat)
    (hmask : g = true → mask.length = 4)
    (hmax : payload.length ≤ maxSize)
    (hlen : payload.length ∈ ([0, 1, 125, 126, 65535, 65536] : List Nat))
    (hcode : code = OpCode.text ∨ code = OpCode.binary ∨ code = OpCode.ping
      ∨ code = OpCode.pong)
    (hctrl : (code = OpCode.ping ∨ code = OpCode.pong) → payload.length ≤ 125) :
    Frame.parse (Frame.message payload code fin g mask) g maxSize
      = Frame.ParseOut.ready
          { finished := fin, rsv1 := false, rsv2 := false, rsv3 := false,
            opcode := code, payload := payload } := by
  apply parse_message_roundtrip payload code fin g mask maxSize hmask hmax
  · simp only [List.mem_cons, List.mem_singleton] at hlen
    rcases hlen with h | h | h | h | h | h | h <;> first | (rw [h]; norm_num) | cases h
  · rcases hcode with h | h | h | h
    · exact Or.inl h
    · exact Or.inr (Or.inl h)
    · exact Or.inr (Or.inr ⟨Or.inl h, hctrl (Or.inl h)⟩)
    · exact Or.inr (Or.inr ⟨Or.inr h, hctrl (Or.inr h)⟩)

/-- C4 (amended) witness: a masked Text frame with a 126-byte payload and
mask key `[1, 2, 3, 4]` round-trips through `message` and `parse` in the
server role. -/
theorem ws_frame_roundtrip_witness :
    ((true : Bool) = true → ([1, 2, 3, 4] : List Nat).length = 4)
    ∧ (List.replicate 126 7).length ≤ 200
    ∧ (List.replicate 126 7).length ∈ ([0, 1, 125, 126, 65535, 65536] : List Nat)
    ∧ (OpCode.text = OpCode.text ∨ OpCode.text = OpCode.binary
        ∨ OpCode.text = OpCode.ping ∨ OpCode.text = OpCode.pong)
    ∧ ((OpCode.text = OpCode.ping ∨ OpCode.text = OpCode.pong)
        → (List.replicate 126 7).length ≤ 125)
    ∧ Frame.parse
        (Frame.message (List.replicate 126 7) OpCode.text true true [1, 2, 3, 4])
        true 200
      = Frame.ParseOut.ready
          { finished := true, rsv1 := false, rsv2 := false, rsv3 := false,
            opcode := OpCode.text, payload := List.replicate 126 7 } :=
  ⟨by decide, by decide, by decide, Or.inl rfl, by decide,
   ws_frame_roundtrip (List.replicate 126 7) OpCode.text true true [1, 2, 3, 4] 200
     (by decide) (by decide) (by decide) (Or.inl rfl) (by decide)⟩

/-- C6 (amended) witness: the amended statement evaluated on the concrete
two-entry bucket; the stale front entry (released 30 ticks ago with
`keep_alive = 20`) is evicted to the close list and the fresh entry
survives. -/
theorem idle_discipline_amended_witness :
    alGet (ClientConnector.collect (K := Nat) 50 false false [] [] []
      { limit := 0, limitPerHost := 0, acquired := 0, acquiredPerHost := [],
        available := [(0,
          [{ released := 20,
             conn := { key := 0, ts := 20, probe := ProbeResult.wouldBlock,
                       shutdownNotReady := false } },
           { released := 49,
             conn := { key := 0, ts := 45, probe := ProbeResult.wouldBlock,
                       shutdownNotReady := false } }])],
        toClose := [], connKeepAlive := 20, connLifetime := 100 }).available 0
      = some
          ([{ released := 20,
              conn := { key := 0, ts := 20, probe := ProbeResult.wouldBlock,
                        shutdownNotReady := false } },
            { released := 49,
              conn := { key := 0, ts := 45, probe := ProbeResult.wouldBlock,
                        shutdownNotReady := false } }].dropWhile
            (ClientConnector.staleAt 50 20 100))
    ∧ ∀ e ∈ [{ released := 20,
               conn := { key := 0, ts := 20, probe := ProbeResult.wouldBlock,
                         shutdownNotReady := false } },
             { released := 49,
               conn := { key := 0, ts := 45, probe := ProbeResult.wouldBlock,
                         shutdownNotReady := false } }].takeWhile
          (ClientConnector.staleAt 50 20 100),
        e.conn ∈ (ClientConnector.collect (K := Nat) 50 false false [] [] []
          { limit := 0, limitPerHost := 0, acquired := 0, acquiredPerHost := [],
            available := [(0,
              [{ released := 20,
                 conn := { key := 0, ts := 20, probe := ProbeResult.wouldBlock,
                           shutdownNotReady := false } },
               { released := 49,
                 conn := { key := 0, ts := 45, probe := ProbeResult.wouldBlock,
                           shutdownNotReady := false } }])],
            toClose := [], connKeepAlive := 20, connLifetime := 100 }).toClose :=
  idle_discipline_amended 50
    { limit := 0, limitPerHost := 0, acquired := 0, acquiredPerHost := [],
      available := [(0,
        [{ released := 20,
           conn := { key := 0, ts := 20, probe := ProbeResult.wouldBlock,
                     shutdownNotReady := false } },
         { released := 49,
           conn := { key := 0, ts := 45, probe := ProbeResult.wouldBlock,
                     shutdownNotReady := false } }])],
      toClose := [], connKeepAlive := 20, connLifetime := 100 } 0 _ (by decide)

end ActixWeb
